import Mathlib

/-!
Shallow embedding of the SRT to ASS subtitle converter implemented in
`src/app/api/convert/route.ts` (class `SRTtoASSConverter`), together with
theorems settling the specification claims.

Modelling conventions:
* JavaScript strings are modelled as `String` / `List Char`.
* The JavaScript number that holds a parsed cue index is modelled as
  `Option Int`, with `none` playing the role of `NaN` (note that
  `Number.parseInt` never throws; it returns `NaN` on failure).
* The concrete regular expressions of the source are modelled by
  executable matchers implementing the same leftmost-match,
  greedy-with-backtracking semantics for exactly those patterns.
* `try`/`catch` blocks whose bodies cannot throw are modelled by the
  plain body; a `catch` that swallows a `throw` of the same function is
  modelled by returning the fallback value directly.
-/

set_option maxRecDepth 16000

namespace SRTtoASS

/-- Characters of the JavaScript whitespace class: the characters matched
by the regex class `\s` and stripped by `String.prototype.trim`. -/
def jsIsWs (c : Char) : Bool :=
  c == ' ' || c == '\t' || c == '\n' || c == '\r' ||
  c == Char.ofNat 0x0b || c == Char.ofNat 0x0c || c == Char.ofNat 0xa0 ||
  c == Char.ofNat 0xfeff || c == Char.ofNat 0x1680 ||
  c == Char.ofNat 0x2028 || c == Char.ofNat 0x2029 ||
  c == Char.ofNat 0x202f || c == Char.ofNat 0x205f ||
  c == Char.ofNat 0x3000 || (0x2000 ≤ c.toNat && c.toNat ≤ 0x200a)

/-- Model of `String.prototype.trim`: strip JavaScript whitespace from
both ends. -/
def jsTrim (l : List Char) : List Char :=
  ((l.dropWhile jsIsWs).reverse.dropWhile jsIsWs).reverse

/-- Fuel-indexed worker for `replaceAll`; structural recursion on the
fuel keeps the definition reducible by the kernel. With fuel at least
the length of the input (as the wrapper supplies) the fuel never runs
out. -/
def replaceAllAux (pat rep : List Char) : Nat → List Char → List Char
  | 0, l => l
  | _ + 1, [] => []
  | fuel + 1, c :: rest =>
    if pat ≠ [] ∧ pat.isPrefixOf (c :: rest) then
      rep ++ replaceAllAux pat rep fuel ((c :: rest).drop pat.length)
    else
      c :: replaceAllAux pat rep fuel rest

/-- Model of `str.replace(new RegExp(pat, "g"), rep)` for a pattern
string `pat` containing no regex metacharacters: every leftmost,
non-overlapping literal occurrence of `pat` is replaced by `rep`. -/
def replaceAll (pat rep l : List Char) : List Char :=
  replaceAllAux pat rep l.length l

/-- Model of `str.replace(pat, rep)` with a plain string pattern: only
the first occurrence is replaced. -/
def jsReplaceFirst (pat rep : List Char) : List Char → List Char
  | [] => []
  | c :: rest =>
    if pat.isPrefixOf (c :: rest) then rep ++ (c :: rest).drop pat.length
    else c :: jsReplaceFirst pat rep rest

/-- Prepend a character to the first segment of a split result. -/
def consHead (c : Char) : List (List Char) → List (List Char)
  | [] => [[c]]
  | s :: ss => (c :: s) :: ss

/-- Model of `str.split(sep)` for a one-character separator string. -/
def splitOnChar (sep : Char) : List Char → List (List Char)
  | [] => [[]]
  | c :: rest =>
    if c == sep then [] :: splitOnChar sep rest
    else consHead c (splitOnChar sep rest)

/-- Fuel-indexed worker for `splitOnList`. -/
def splitOnListAux (pat : List Char) : Nat → List Char → List (List Char)
  | 0, l => [l]
  | _ + 1, [] => [[]]
  | fuel + 1, c :: rest =>
    if pat ≠ [] ∧ pat.isPrefixOf (c :: rest) then
      [] :: splitOnListAux pat fuel ((c :: rest).drop pat.length)
    else consHead c (splitOnListAux pat fuel rest)

/-- Model of `str.split(pat)` for a multi-character separator string. -/
def splitOnList (pat l : List Char) : List (List Char) :=
  splitOnListAux pat l.length l

theorem dropWhileLen {α : Type} (p : α → Bool) (l : List α) :
    (l.dropWhile p).length ≤ l.length := by
  induction l with
  | nil => simp
  | cons c t ih =>
    simp only [List.dropWhile_cons]
    split
    · simp
      omega
    · simp

/-- The ten decimal digit characters. -/
def digitChars : List Char := ['0', '1', '2', '3', '4', '5', '6', '7', '8', '9']

/-- Decimal digit character of `d % 10`. -/
def decChar (d : Nat) : Char := digitChars.getD (d % 10) '0'

/-- Fuel-indexed worker for `toDecimalDigits`; the wrapper supplies
ample fuel (the number itself exceeds its digit count). -/
def toDecimalDigitsAux : Nat → Nat → List Char
  | 0, _ => []
  | fuel + 1, n =>
    if n < 10 then [decChar n]
    else toDecimalDigitsAux fuel (n / 10) ++ [decChar (n % 10)]

/-- Decimal digit string of a natural number, as produced by the
JavaScript number-to-string conversion for non-negative integers. -/
def toDecimalDigits (n : Nat) : List Char :=
  toDecimalDigitsAux (n + 1) n

/-- Numeric value of a decimal digit character. -/
def digitVal (c : Char) : Nat := c.toNat - 48

/-- Numeric value of a string of decimal digit characters. -/
def digitsVal (l : List Char) : Nat :=
  l.foldl (fun a c => 10 * a + digitVal c) 0

/-- Model of `str.padStart(len, c)`. -/
def padStartList (len : Nat) (c : Char) (l : List Char) : List Char :=
  List.replicate (len - l.length) c ++ l

/-- Hexadecimal digit test, for the implicit radix-16 mode of
`Number.parseInt`. -/
def isHexDigitCh (c : Char) : Bool :=
  c.isDigit || ('a' ≤ c && c ≤ 'f') || ('A' ≤ c && c ≤ 'F')

/-- Numeric value of a hexadecimal digit character. -/
def hexDigitVal (c : Char) : Nat :=
  if c.isDigit then c.toNat - 48
  else if 'a' ≤ c && c ≤ 'f' then c.toNat - 87
  else c.toNat - 55

/-- Magnitude part of `Number.parseInt` with no radix argument: an
optional `0x`/`0X` prefix selects base 16, otherwise the longest leading
run of decimal digits is taken; an empty run yields `NaN` (`none`). -/
def jsParseIntMag (l : List Char) : Option Nat :=
  match l with
  | '0' :: x :: rest =>
    if x == 'x' || x == 'X' then
      let run := rest.takeWhile isHexDigitCh
      if run.isEmpty then none
      else some (run.foldl (fun a c => 16 * a + hexDigitVal c) 0)
    else some (digitsVal (('0' :: x :: rest).takeWhile Char.isDigit))
  | _ =>
    let run := l.takeWhile Char.isDigit
    if run.isEmpty then none else some (digitsVal run)

/-- Model of `Number.parseInt(s)`: skip leading whitespace, read an
optional sign, then the magnitude; `none` models the `NaN` result.
`Number.parseInt` never throws. -/
def jsParseInt (s : String) : Option Int :=
  match s.data.dropWhile jsIsWs with
  | '-' :: t => (jsParseIntMag t).map (fun n => -(n : Int))
  | '+' :: t => (jsParseIntMag t).map (fun n => (n : Int))
  | t => (jsParseIntMag t).map (fun n => (n : Int))

/-- One candidate match of the timestamp pattern
`(\d{1,2}):(\d{2}):(\d{2})[.,](\d{1,3})` at a fixed start position:
the four captured digit groups, the separator character, and the input
remaining after the match. -/
structure TSMatch where
  hh : List Char
  mm : List Char
  ss : List Char
  sepc : Char
  fr : List Char
  rest : List Char
deriving Repr, DecidableEq

/-- The characters consumed by a timestamp match. -/
def TSMatch.matched (m : TSMatch) : List Char :=
  m.hh ++ ':' :: m.mm ++ ':' :: m.ss ++ m.sepc :: m.fr

/-- Match the tail `:(\d{2}):(\d{2})[.,](\d{1,3})` of the timestamp
pattern after the hours group `hh`; the returned candidates differ in
the length of the greedy fractional group and are listed in the
backtracking preference order of the regex engine (3, then 2, then 1
digits). -/
def tsTail (hh : List Char) (rest : List Char) : List TSMatch :=
  match rest with
  | m1 :: m2 :: ':' :: s1 :: s2 :: sp :: rest2 =>
    if m1.isDigit && m2.isDigit && s1.isDigit && s2.isDigit &&
        (sp == '.' || sp == ',') then
      match rest2.takeWhile Char.isDigit with
      | [] => []
      | [f1] => [⟨hh, [m1, m2], [s1, s2], sp, [f1], rest2.drop 1⟩]
      | [f1, f2] =>
          [⟨hh, [m1, m2], [s1, s2], sp, [f1, f2], rest2.drop 2⟩,
           ⟨hh, [m1, m2], [s1, s2], sp, [f1], rest2.drop 1⟩]
      | f1 :: f2 :: f3 :: _ =>
          [⟨hh, [m1, m2], [s1, s2], sp, [f1, f2, f3], rest2.drop 3⟩,
           ⟨hh, [m1, m2], [s1, s2], sp, [f1, f2], rest2.drop 2⟩,
           ⟨hh, [m1, m2], [s1, s2], sp, [f1], rest2.drop 1⟩]
    else []
  | _ => []

/-- Candidates for a one-digit hours group at this position. -/
def tsCandsOne (l : List Char) : List TSMatch :=
  match l with
  | a :: ':' :: rest => if a.isDigit then tsTail [a] rest else []
  | _ => []

/-- All candidate matches of the timestamp pattern starting exactly at
the head of `l`, in backtracking preference order. A two-digit hours
group is preferred; one- and two-digit hour alternatives are mutually
exclusive because the character after a one-digit hours group must be a
colon, never a digit. -/
def tsCandsAt (l : List Char) : List TSMatch :=
  match l with
  | a :: b :: ':' :: rest =>
    if a.isDigit && b.isDigit then tsTail [a, b] rest else tsCandsOne l
  | _ => tsCandsOne l

/-- Leftmost match of the timestamp pattern: scan positions left to
right and take the first (preferred) candidate at the first position
that has any. -/
def searchTS : List Char → Option TSMatch
  | [] => none
  | c :: rest =>
    match (tsCandsAt (c :: rest)).head? with
    | some m => some m
    | none => searchTS rest

/-- The ASS timestamp template of `parseSRTTime`:
`hours:MM:SS.cc` with minutes, seconds and centiseconds padded to two
digits and the hours rendered without padding. -/
def assFormatTime (h m s cs : Nat) : List Char :=
  toDecimalDigits h ++ ':' :: padStartList 2 '0' (toDecimalDigits m) ++
    ':' :: padStartList 2 '0' (toDecimalDigits s) ++
    '.' :: padStartList 2 '0' (toDecimalDigits cs)

/-- Model of `parseSRTTime`: trim, replace the first comma by a dot,
search for the timestamp pattern, validate ranges, and render
centiseconds by truncating integer division; every failure path
(no match, or an out-of-range component, both thrown and caught inside
the function) yields the sentinel `0:00:00.00`. `Number.parseInt` on a
captured group, which is always a non-empty string of decimal digits,
is its decimal value. -/
def parseSRTTime (timeStr : String) : String :=
  let t := jsReplaceFirst [','] ['.'] (jsTrim timeStr.data)
  match searchTS t with
  | none => "0:00:00.00"
  | some m =>
    let hours := digitsVal m.hh
    let minutes := digitsVal m.mm
    let seconds := digitsVal m.ss
    let ms := digitsVal ((m.fr ++ List.replicate (3 - m.fr.length) '0').take 3)
    if minutes ≥ 60 || seconds ≥ 60 || ms ≥ 1000 then "0:00:00.00"
    else String.mk (assFormatTime hours minutes seconds (ms / 10))

/-- The ordered substitution table of `fixEncodingArtifacts`. The table
in the source file is syntactically damaged by a formatting tool: stray
backslashes and straight quotes replaced some original characters. It is
transcribed here byte-for-byte from the source, restoring a mangled
straight quote inside a key to the cp1252 smart quote that the mojibake
convention of the table implies (the cp1252 image of the last UTF-8 byte
of the entry value), and applying the JavaScript object-literal rule for
duplicate keys (property position of the first occurrence, value of the
last). -/
def encodingFixes : List (String × String) := [
  ("\u0102\u00a1", "\u00e1"),
  ("\u0102 ", "\u00e0"),
  ("\u00e1\u00ba\u00a3", "\u1ea3"),
  ("\u0102\u00a3", "\u00e3"),
  ("\u00e1\u00ba\u00a1", "\u1ea1"),
  ("\u0102\u00a2", "\u00e2"),
  ("\u00e1\u00ba\u00a5", "\u1ea5"),
  ("\u00e1\u00ba\u00a7", "\u1ea7"),
  ("\u00e1\u00ba\u00a9", "\u1ea9"),
  ("\u00e1\u00ba\u00ab", "\u1eab"),
  ("\u00e1\u00ba\u00ad", "\u1ead"),
  ("\u00c4", "\u0111"),
  ("\u00c4\u2018", "\u0111"),
  ("\u0102\u00a9", "\u00e9"),
  ("\u0102\u00a8", "\u00e8"),
  ("\u00e1\u00ba\u00bb", "\u1ebb"),
  ("\u00e1\u00ba\u00bd", "\u1ebd"),
  ("\u00e1\u00ba\u00b9", "\u1eb9"),
  ("\u0102\u00aa", "\u00ea"),
  ("\u00e1\u00ba\u00bf", "\u1ebf"),
  ("\u00e1\u00bb", "\u1ed0"),
  ("\u00e1\u00bb\u0192", "\u1ec3"),
  ("\u00e1\u00bb\u2026", "\u1ec5"),
  ("\u00e1\u00bb\u2021", "\u1ec7"),
  ("\u0102\u00ad", "\u00ed"),
  ("\u0102\u00ac", "\u00ec"),
  ("\u00e1\u00bb\u2030", "\u1ec9"),
  ("\u00c4\u00a9", "\u0129"),
  ("\u00e1\u00bb\u2039", "\u1ecb"),
  ("\u0102\u00b3", "\u00f3"),
  ("\u0102\u00b2", "\u00f2"),
  ("\u0102\u00b5", "\u00f5"),
  ("\u0102\u00b4", "\u00f4"),
  ("\u00e1\u00bb\u2018", "\u1ed1"),
  ("\u00e1\u00bb\u201c", "\u1ed3"),
  ("\u00e1\u00bb\u2022", "\u1ed5"),
  ("\u00e1\u00bb\u2014", "\u1ed7"),
  ("\u00e1\u00bb\u2122", "\u1ed9"),
  ("\u00c6\u00a1", "\u01a1"),
  ("\u00e1\u00bb\u203a", "\u1edb"),
  ("\u00e1\u00bb\u0178", "\u1edf"),
  ("\u00e1\u00bb\u00a1", "\u1ee1"),
  ("\u00e1\u00bb\u00a3", "\u1ee3"),
  ("\u0102\u00ba", "\u00fa"),
  ("\u0102\u00b9", "\u00f9"),
  ("\u00e1\u00bb\u00a7", "\u1ee7"),
  ("\u00c5\u00a9", "\u0169"),
  ("\u00e1\u00bb\u00a5", "\u1ee5"),
  ("\u00c6\u00b0", "\u01b0"),
  ("\u00e1\u00bb\u00a9", "\u1ee9"),
  ("\u00e1\u00bb\u00ab", "\u1eeb"),
  ("\u00e1\u00bb\u00ad", "\u1eed"),
  ("\u00e1\u00bb\u00af", "\u1eef"),
  ("\u00e1\u00bb\u00b1", "\u1ef1"),
  ("\u0102\u00bd", "\u00fd"),
  ("\u00e1\u00bb\u00b3", "\u1ef3"),
  ("\u00e1\u00bb\u00b7", "\u1ef7"),
  ("\u00e1\u00bb\u00b9", "\u1ef9"),
  ("\u00e1\u00bb\u00b5", "\u1ef5"),
  ("\u0102", "\u00dd"),
  ("\u0102\u20ac", "\u00c0"),
  ("\u00e1\u00ba\u00a2", "\u1ea2"),
  ("\u0102\u0192", "\u00c3"),
  ("\u00e1\u00ba ", "\u1ea0"),
  ("\u0102\u201a", "\u00c2"),
  ("\u00e1\u00ba\u00a4", "\u1ea4"),
  ("\u00e1\u00ba\u00a6", "\u1ea6"),
  ("\u00e1\u00ba\u00a8", "\u1ea8"),
  ("\u00e1\u00ba\u00aa", "\u1eaa"),
  ("\u00e1\u00ba\u00ac", "\u1eac"),
  ("\u00c4\u201a", "\u0110"),
  ("\u0102\u2030", "\u00c9"),
  ("\u0102\u02c6", "\u00c8"),
  ("\u00e1\u00ba\u00ba", "\u1eba"),
  ("\u00e1\u00ba\u00bc", "\u1ebc"),
  ("\u00e1\u00ba\u00b8", "\u1eb8"),
  ("\u0102\u0160", "\u00ca"),
  ("\u00e1\u00ba\u00be", "\u1ebe"),
  ("\u00e1\u00bb\u20ac", "\u1ec0"),
  ("\u00e1\u00bb\u201a", "\u1ec2"),
  ("\u00e1\u00bb\u201e", "\u1ec4"),
  ("\u00e1\u00bb\u2020", "\u1ec6"),
  ("\u0102\u0152", "\u00cc"),
  ("\u00e1\u00bb\u02c6", "\u1ec8"),
  ("\u00c4\u00a8", "\u0128"),
  ("\u00e1\u00bb\u0160", "\u1eca"),
  ("\u0102\u201c", "\u00d3"),
  ("\u0102\u2019", "\u00d2"),
  ("\u00e1\u00bb\u017d", "\u1ece"),
  ("\u0102\u2022", "\u00d5"),
  ("\u00e1\u00bb\u0152", "\u1ecc"),
  ("\u0102\u201d", "\u00d4"),
  ("\u00e1\u00bb\u2019", "\u1ed2"),
  ("\u00e1\u00bb\u201d", "\u1ed4"),
  ("\u00e1\u00bb\u2013", "\u1ed6"),
  ("\u00e1\u00bb\u02dc", "\u1ed8"),
  ("\u00c6 ", "\u01a0"),
  ("\u00e1\u00bb\u0161", "\u1eda"),
  ("\u00e1\u00bb\u0153", "\u1edc"),
  ("\u00e1\u00bb\u017e", "\u1ede"),
  ("\u00e1\u00bb ", "\u1ee0"),
  ("\u00e1\u00bb\u00a2", "\u1ee2"),
  ("\u0102\u0161", "\u00da"),
  ("\u0102\u2122", "\u00d9"),
  ("\u00e1\u00bb\u00a6", "\u1ee6"),
  ("\u00c5\u00a8", "\u0168"),
  ("\u00e1\u00bb\u00a4", "\u1ee4"),
  ("\u00c6\u00af", "\u01af"),
  ("\u00e1\u00bb\u00a8", "\u1ee8"),
  ("\u00e1\u00bb\u00aa", "\u1eea"),
  ("\u00e1\u00bb\u00ac", "\u1eec"),
  ("\u00e1\u00bb\u00ae", "\u1eee"),
  ("\u00e1\u00bb\u00b0", "\u1ef0"),
  ("\u00e1\u00bb\u00b2", "\u1ef2"),
  ("\u00e1\u00bb\u00b6", "\u1ef6"),
  ("\u00e1\u00bb\u00b8", "\u1ef8"),
  ("\u00e1\u00bb\u00b4", "\u1ef4")
]

/-- Model of `fixEncodingArtifacts`: fold the substitution table over
the text, each entry applied as a global literal replacement
(`new RegExp(wrong, "g")` on these keys is a literal pattern, since no
key contains a regex metacharacter). Never fails; text matching no key
passes through unchanged. -/
def fixEncodingArtifacts (text : String) : String :=
  String.mk (encodingFixes.foldl (fun t p => replaceAll p.1.data p.2.data t) text.data)

/-- Line terminator characters, the characters not matched by the regex
metacharacter dot. -/
def isLineTerm (c : Char) : Bool :=
  c == '\n' || c == '\r' || c == Char.ofNat 0x2028 || c == Char.ofNat 0x2029

/-- Opening italic tag `<i>` (case-insensitive) at the head of `l`. -/
def openITagAt (l : List Char) : Bool :=
  match l with
  | '<' :: c :: '>' :: _ => c == 'i' || c == 'I'
  | _ => false

/-- Closing italic tag `</i>` (case-insensitive) at the head of `l`. -/
def closeITagAt (l : List Char) : Bool :=
  match l with
  | '<' :: '/' :: c :: '>' :: _ => c == 'i' || c == 'I'
  | _ => false

/-- Search for `</i>` reachable from here without crossing a line
terminator, the tail `.*<\/i>` of the italic-detection regex. -/
def findCloseI : List Char → Bool
  | [] => false
  | c :: t =>
    if closeITagAt (c :: t) then true
    else if isLineTerm c then false
    else findCloseI t

/-- Model of `/<i>.*<\/i>/i.test(text)`: some `<i>` is followed by some
`</i>` with no line terminator in between (the regex dot does not match
line terminators, so the pair must sit inside one line). -/
def italicTest : List Char → Bool
  | [] => false
  | c :: t => (openITagAt (c :: t) && findCloseI (t.drop 2)) || italicTest t

/-- Model of `text.replace(/<\/?i>/gi, "")`: delete every `<i>`, `</i>`,
`<I>`, `</I>`. -/
def stripITags : List Char → List Char
  | [] => []
  | '<' :: '/' :: c :: '>' :: t =>
    if c == 'i' || c == 'I' then stripITags t
    else '<' :: stripITags ('/' :: c :: '>' :: t)
  | '<' :: c :: '>' :: t =>
    if c == 'i' || c == 'I' then stripITags t
    else '<' :: stripITags (c :: '>' :: t)
  | c :: t => c :: stripITags t

/-- Consume `[^>]*>`: everything up to and including the first `>`;
no `>` ahead means the tag pattern cannot match. -/
def restAfterGt : List Char → Option (List Char)
  | [] => none
  | '>' :: t => some t
  | _ :: t => restAfterGt t

/-- Case-insensitive match of the letters `p` at the head of the input,
returning the remainder. -/
def ciPrefix : List Char → List Char → Option (List Char)
  | [], l => some l
  | _, [] => none
  | p :: ps, c :: cs => if c.toLower == p.toLower then ciPrefix ps cs else none

/-- Match `<\/?NAME[^>]*>` at the head of `l`, returning the input after
the match. The optional slash is consumed greedily; backtracking over it
cannot succeed because a tag name letter never equals a slash. -/
def tagMatchAt (name : List Char) (l : List Char) : Option (List Char) :=
  match l with
  | '<' :: rest =>
    let rest2 := if rest.head? == some '/' then rest.tail else rest
    match ciPrefix name rest2 with
    | some r3 => restAfterGt r3
    | none => none
  | _ => none

/-- Fuel-indexed worker for `stripTagPass`: a tag match always consumes
at least one character, so fuel equal to the input length suffices. -/
def stripTagPassAux (name : List Char) : Nat → List Char → List Char
  | 0, l => l
  | _ + 1, [] => []
  | fuel + 1, c :: t =>
    match tagMatchAt name (c :: t) with
    | some rest => stripTagPassAux name fuel rest
    | none => c :: stripTagPassAux name fuel t

/-- One global pass of `text.replace(/<\/?NAME[^>]*>/gi, "")`. -/
def stripTagPass (name l : List Char) : List Char :=
  stripTagPassAux name l.length l

/-- The tag names stripped by `cleanAndFormatText`, in source order:
bold, underline, strike, emphasis, strong, font, span, div, paragraph. -/
def htmlTagNames : List (List Char) :=
  [['b'], ['u'], ['s'], ['e','m'], ['s','t','r','o','n','g'],
   ['f','o','n','t'], ['s','p','a','n'], ['d','i','v'], ['p']]

/-- Match `<br\s*\/?>` (case-insensitive) at the head of `l`. -/
def brMatchAt (l : List Char) : Option (List Char) :=
  match l with
  | '<' :: b :: r :: rest =>
    if (b == 'b' || b == 'B') && (r == 'r' || r == 'R') then
      match rest.dropWhile jsIsWs with
      | '/' :: '>' :: t => some t
      | '>' :: t => some t
      | _ => none
    else none
  | _ => none

/-- Fuel-indexed worker for `brPass`. -/
def brPassAux : Nat → List Char → List Char
  | 0, l => l
  | _ + 1, [] => []
  | fuel + 1, c :: t =>
    match brMatchAt (c :: t) with
    | some rest => '\\' :: 'N' :: brPassAux fuel rest
    | none => c :: brPassAux fuel t

/-- Model of `text.replace(/<br\s*\/?>/gi, "\\N")`. -/
def brPass (l : List Char) : List Char :=
  brPassAux l.length l

/-- The HTML entity table of `cleanAndFormatText`, transcribed from the
source in order. -/
def htmlEntities : List (String × String) := [
  ("&amp;", "&"),
  ("&lt;", "<"),
  ("&gt;", ">"),
  ("&quot;", "\""),
  ("&apos;", "\u0027"),
  ("&#39;", "\u0027"),
  ("&nbsp;", " "),
  ("&mdash;", "\u2014"),
  ("&ndash;", "\u2013"),
  ("&hellip;", "\u2026"),
  ("&#225;", "\u00e1"),
  ("&#224;", "\u00e0"),
  ("&#7843;", "\u1ea3"),
  ("&#227;", "\u00e3"),
  ("&#7841;", "\u1ea1"),
  ("&#226;", "\u00e2"),
  ("&#7845;", "\u1ea5"),
  ("&#7847;", "\u1ea7"),
  ("&#7849;", "\u1ea9"),
  ("&#7851;", "\u1eab"),
  ("&#7853;", "\u1ead"),
  ("&#273;", "\u0111"),
  ("&#233;", "\u00e9"),
  ("&#232;", "\u00e8"),
  ("&#7867;", "\u1ebb"),
  ("&#7869;", "\u1ebd"),
  ("&#7865;", "\u1eb9"),
  ("&#234;", "\u00ea"),
  ("&#7871;", "\u1ebf"),
  ("&#7873;", "\u1ec1"),
  ("&#7875;", "\u1ec3"),
  ("&#7877;", "\u1ec5"),
  ("&#7879;", "\u1ec7"),
  ("&#237;", "\u00ed"),
  ("&#236;", "\u00ec"),
  ("&#7881;", "\u1ec9"),
  ("&#297;", "\u0129"),
  ("&#7883;", "\u1ecb"),
  ("&#243;", "\u00f3"),
  ("&#242;", "\u00f2"),
  ("&#7887;", "\u1ecf"),
  ("&#245;", "\u00f5"),
  ("&#7885;", "\u1ecd"),
  ("&#244;", "\u00f4"),
  ("&#7889;", "\u1ed1"),
  ("&#7891;", "\u1ed3"),
  ("&#7893;", "\u1ed5"),
  ("&#7895;", "\u1ed7"),
  ("&#7897;", "\u1ed9"),
  ("&#417;", "\u01a1"),
  ("&#7899;", "\u1edb"),
  ("&#7901;", "\u1edd"),
  ("&#7903;", "\u1edf"),
  ("&#7905;", "\u1ee1"),
  ("&#7907;", "\u1ee3"),
  ("&#250;", "\u00fa"),
  ("&#249;", "\u00f9"),
  ("&#7911;", "\u1ee7"),
  ("&#361;", "\u0169"),
  ("&#7909;", "\u1ee5"),
  ("&#432;", "\u01b0"),
  ("&#7913;", "\u1ee9"),
  ("&#7915;", "\u1eeb"),
  ("&#7917;", "\u1eed"),
  ("&#7919;", "\u1eef"),
  ("&#7921;", "\u1ef1"),
  ("&#253;", "\u00fd"),
  ("&#7923;", "\u1ef3"),
  ("&#7927;", "\u1ef7"),
  ("&#7929;", "\u1ef9"),
  ("&#7925;", "\u1ef5")
]

/-- Fuel-indexed worker for `collapseWs`. -/
def collapseWsAux : Nat → List Char → List Char
  | 0, l => l
  | _ + 1, [] => []
  | fuel + 1, c :: t =>
    if jsIsWs c then ' ' :: collapseWsAux fuel (t.dropWhile jsIsWs)
    else c :: collapseWsAux fuel t

/-- Model of `originalText.replace(/\s+/g, " ")`: every maximal run of
JavaScript whitespace becomes one space. -/
def collapseWs (l : List Char) : List Char :=
  collapseWsAux l.length l

/-- Model of `array.join(sep)` for a list of strings as lists of
characters. -/
def joinSep (sep : List Char) : List (List Char) → List Char
  | [] => []
  | [p] => p
  | p :: ps => p ++ sep ++ joinSep sep ps

/-- The empty-result fallback at the end of `cleanAndFormatText`: keep
the cleaned text when non-empty, otherwise fall back to the original
text trimmed and whitespace-collapsed, otherwise to the literal
placeholder. -/
def finalizeText (originalText t11 : List Char) : List Char :=
  if t11 = [] then
    if collapseWs (jsTrim originalText) = [] then "[Empty subtitle]".data
    else collapseWs (jsTrim originalText)
  else t11

theorem finalizeText_ne_nil (originalText t11 : List Char) :
    finalizeText originalText t11 ≠ [] := by
  unfold finalizeText
  split
  · split
    · decide
    · assumption
  · assumption

/-- Result record of `cleanAndFormatText`. -/
structure FormattedText where
  cleanedText : String
  style : String
deriving Repr, DecidableEq

/-- The steps of `cleanAndFormatText` before italic handling:
byte-order-mark removal, encoding fixes, then line-ending normalisation
(`\r\n` and bare `\r` to `\n`). -/
def preFormat (orig : List Char) : List Char :=
  replaceAll ['\r'] ['\n']
    (replaceAll ['\r', '\n'] ['\n']
      (encodingFixes.foldl (fun t p => replaceAll p.1.data p.2.data t)
        (replaceAll [Char.ofNat 0xfeff] [] orig)))

/-- The steps of `cleanAndFormatText` after italic handling: tag
stripping in source order, break tags to the ASS break marker, entity
decoding, newline conversion to the ASS break marker, then splitting on
the break marker, trimming each line, dropping empty lines, rejoining,
and trimming the whole. -/
def postFormat (t5 : List Char) : List Char :=
  jsTrim (joinSep ['\\', 'N']
    (((splitOnList ['\\', 'N']
        (replaceAll ['\n'] ['\\', 'N']
          (htmlEntities.foldl (fun t p => replaceAll p.1.data p.2.data t)
            (brPass (htmlTagNames.foldl (fun t n => stripTagPass n t) t5))))).map
        jsTrim).filter (fun l => decide (l.length > 0))))

/-- Model of `cleanAndFormatText`, step for step: falsy-input early
return, then `preFormat`, italic detection and stripping, `postFormat`,
and the empty-result fallbacks of `finalizeText`. The body of the
source cannot throw, so the catch branch is dead and is not modelled. -/
def cleanAndFormatText (text : String) : FormattedText :=
  if text = "" then ⟨"", "Default"⟩
  else
    ⟨String.mk (finalizeText text.data
        (postFormat
          (if italicTest (preFormat text.data) then stripITags (preFormat text.data)
           else preFormat text.data))),
      if italicTest (preFormat text.data) then "Italic" else "Default"⟩

/-- One parsed subtitle cue. The source field `end` is renamed `endTime`
because `end` is reserved in Lean. `number` is `Option Int`: `none`
models the `NaN` that `Number.parseInt` yields on a first line with no
leading integer. The `try`/`catch` around `Number.parseInt` in the
source is dead code, since `Number.parseInt` never throws; the
digit-extraction fallback in that `catch` is therefore never executed
and a block whose first line has no leading integer is accepted with a
`NaN` number. -/
structure SubtitleEntry where
  number : Option Int
  start : String
  endTime : String
  text : String
  style : String
  originalText : String
deriving Repr, DecidableEq

/-- Continuation of the time-range patterns after a first-timestamp
candidate: optional whitespace, the separator literal, optional
whitespace, then a second timestamp. Candidates are tried in
backtracking order; the second timestamp needs no backtracking because
nothing follows its greedy fractional group. Returns the two captured
timestamp substrings. -/
def rangeCandAt (sep : List Char) : List TSMatch → Option (List Char × List Char)
  | [] => none
  | m :: rest =>
    let r1 := m.rest.dropWhile jsIsWs
    if sep.isPrefixOf r1 then
      match (tsCandsAt ((r1.drop sep.length).dropWhile jsIsWs)).head? with
      | some m2 => some (m.matched, m2.matched)
      | none => rangeCandAt sep rest
    else rangeCandAt sep rest

/-- Leftmost match of a time-range pattern
`(\d{1,2}:\d{2}:\d{2}[.,]\d{1,3})\s*SEP\s*(\d{1,2}:\d{2}:\d{2}[.,]\d{1,3})`. -/
def searchRange (sep : List Char) : List Char → Option (List Char × List Char)
  | [] => none
  | c :: rest =>
    match rangeCandAt sep (tsCandsAt (c :: rest)) with
    | some r => some r
    | none => searchRange sep rest

/-- The line decomposition of `parseSRTBlock`: trim the block, split on
newlines, trim each line, drop the empty ones. -/
def blockLines (block : String) : List (List Char) :=
  ((splitOnChar '\n' (jsTrim block.data)).map jsTrim).filter (fun l => !l.isEmpty)

/-- The three time-range separators tried in order by `parseSRTBlock`:
`-->`, the unicode arrow, a bare hyphen; the first matching pattern
wins. -/
def blockTimeMatch (timeLine : List Char) : Option (List Char × List Char) :=
  match searchRange ['-', '-', '>'] timeLine with
  | some r => some r
  | none =>
    match searchRange ['→'] timeLine with
    | some r => some r
    | none => searchRange ['-'] timeLine

/-- Model of `parseSRTBlock`: fewer than three non-empty trimmed lines
rejects the block; the cue number is `Number.parseInt` of the first line
(possibly `NaN`, never a throw); the second line is matched against the
three time-range separator patterns; no match rejects the block; the
remaining lines joined with a newline become the cue text. -/
def parseSRTBlock (block : String) : Option SubtitleEntry :=
  if (blockLines block).length < 3 then none
  else
    match blockTimeMatch ((blockLines block).getD 1 []) with
    | none => none
    | some (g1, g2) =>
      some
        { number := jsParseInt (String.mk ((blockLines block).getD 0 []))
          start := parseSRTTime (String.mk g1)
          endTime := parseSRTTime (String.mk g2)
          text := (cleanAndFormatText
            (String.mk (joinSep ['\n'] ((blockLines block).drop 2)))).cleanedText
          style := (cleanAndFormatText
            (String.mk (joinSep ['\n'] ((blockLines block).drop 2)))).style
          originalText := String.mk (joinSep ['\n'] ((blockLines block).drop 2)) }

/-- Index of the last newline inside the maximal whitespace prefix of
`l`: the greedy extent of `\s*` that still leaves a final `\n`. -/
def lastNlInWsRun : List Char → Option Nat
  | [] => none
  | c :: t =>
    if jsIsWs c then
      match lastNlInWsRun t with
      | some k => some (k + 1)
      | none => if c == '\n' then some 0 else none
    else none

theorem lastNlInWsRun_lt {l : List Char} {k : Nat} (h : lastNlInWsRun l = some k) :
    k < l.length := by
  induction l generalizing k with
  | nil => simp [lastNlInWsRun] at h
  | cons c t ih =>
    simp only [lastNlInWsRun] at h
    split at h
    · split at h
      · cases h
        rename_i hk
        have := ih hk
        simp
        omega
      · split at h
        · cases h
          simp
        · exact absurd h (by simp)
    · exact absurd h (by simp)

/-- Fuel-indexed worker for `splitBlank`. -/
def splitBlankAux : Nat → List Char → List (List Char)
  | 0, l => [l]
  | _ + 1, [] => [[]]
  | fuel + 1, c :: t =>
    if c == '\n' then
      match lastNlInWsRun t with
      | some k => [] :: splitBlankAux fuel (t.drop (k + 1))
      | none => consHead '\n' (splitBlankAux fuel t)
    else consHead c (splitBlankAux fuel t)

/-- Model of `content.split(/\n\s*\n/)`: a separator match is a newline,
then greedily as much whitespace as will still leave a newline to end
the match on. Text between separators (and before the first and after
the last) forms the segments. -/
def splitBlank (l : List Char) : List (List Char) :=
  splitBlankAux l.length l

/-- The blank-line-separated blocks of a document, after the line-ending
normalisation and trim of `parseSRTFile`. -/
def docBlocks (content : String) : List (List Char) :=
  splitBlank (jsTrim (replaceAll ['\r'] ['\n']
    (replaceAll ['\r', '\n'] ['\n'] content.data)))

/-- Sort key of the comparator `(a, b) => a.number - b.number`. A `NaN`
number makes the comparator inconsistent and the resulting order
unspecified in JavaScript; the model treats `NaN` as zero, and the
theorems below only rely on the key for records whose number is not
`NaN`. -/
def sortKey (e : SubtitleEntry) : Int := e.number.getD 0

/-- Model of `parseSRTFile`: the guard throwing on whitespace-only input
is caught by the catch of this same function, which returns the empty
list — so empty input simply yields no records. Otherwise line endings
are normalised, the document split on blank-line runs, blank segments
skipped, each block parsed with failures dropped, and the records sorted
ascending by cue number. `Array.prototype.sort` is a stable sort; every
stable sort computes the same list, and the model uses a stable
insertion sort. -/
def parseSRTFile (content : String) : List SubtitleEntry :=
  if jsTrim content.data = [] then []
  else
    ((docBlocks content).filterMap
      (fun b => if (jsTrim b).isEmpty then none else parseSRTBlock (String.mk b))).insertionSort
      (fun a b => sortKey a ≤ sortKey b)

/-- Digits, one dot, exactly two digits: the shape of the seconds field
of every time string `parseSRTTime` produces, in centiseconds.
`parseFloat` is exact on this shape. -/
def parseSecFrac (l : List Char) : Option Nat :=
  match l.takeWhile Char.isDigit, l.drop (l.takeWhile Char.isDigit).length with
  | [], _ => none
  | ip, ['.', d1, d2] =>
    if d1.isDigit && d2.isDigit then
      some (digitsVal ip * 100 + digitsVal [d1, d2])
    else none
  | _, _ => none

/-- Decompose an ASS time string into total centiseconds, the
`split(":")` plus `parseInt`/`parseInt`/`parseFloat` computation of
`validateSubtitleTiming` (fields past the third are ignored by the
source as well). Every time string reaching the validator in this
pipeline was produced by `parseSRTTime` and has the canonical
`H:MM:SS.cc` shape on which this is exact; any other shape produces a
`NaN` somewhere in the source, which makes the comparison false and
passes the record through unchanged — modelled by `none` here. -/
def timeToCs (s : String) : Option Nat :=
  match splitOnChar ':' s.data with
  | p0 :: p1 :: p2 :: _ =>
    if !p0.isEmpty && p0.all Char.isDigit && !p1.isEmpty && p1.all Char.isDigit then
      (parseSecFrac p2).map
        (fun f => digitsVal p0 * 360000 + digitsVal p1 * 6000 + f)
    else none
  | _ => none

/-- The end-time re-serialisation of `validateSubtitleTiming`:
`hours` unpadded, minutes padded to two digits, and
`seconds.toFixed(2).padStart(5, "0")`, computed on exact centiseconds. -/
def csToAss (c : Nat) : String :=
  String.mk (toDecimalDigits (c / 360000) ++ ':' ::
    padStartList 2 '0' (toDecimalDigits ((c % 360000) / 6000)) ++ ':' ::
    padStartList 5 '0' (toDecimalDigits ((c % 6000) / 100) ++
      '.' :: padStartList 2 '0' (toDecimalDigits (c % 100))))

/-- Per-record step of `validateSubtitleTiming`: whenever both times
decompose and the end is not strictly later than the start, the end
becomes start plus one second, re-serialised. -/
def fixEntryTiming (e : SubtitleEntry) : SubtitleEntry :=
  match timeToCs e.start, timeToCs e.endTime with
  | some sc, some ec => if ec ≤ sc then { e with endTime := csToAss (sc + 100) } else e
  | _, _ => e

/-- Model of `validateSubtitleTiming`: each record is processed
independently (the source mutates `sub.end` in place and pushes every
record, fixed or not, so the result is a map of the per-record step). -/
def validateSubtitleTiming (subtitles : List SubtitleEntry) : List SubtitleEntry :=
  subtitles.map fixEntryTiming

/-- The fixed ASS header emitted by `writeASSFile` (the `assHeader`
field of the source class), verbatim. -/
def assHeader : String :=
  "[Script Info]\nTitle: Converted from SRT\nScriptType: v4.00+\nWrapStyle: 0\n" ++
  "ScaledBorderAndShadow: yes\nYCbCr Matrix: TV.601\nPlayResX: 1920\nPlayResY: 1080\n" ++
  "\n[V4+ Styles]\n" ++
  "Format: Name, Fontname, Fontsize, PrimaryColour, SecondaryColour, OutlineColour, " ++
  "BackColour, Bold, Italic, Underline, StrikeOut, ScaleX, ScaleY, Spacing, Angle, " ++
  "BorderStyle, Outline, Shadow, Alignment, MarginL, MarginR, MarginV, Encoding\n" ++
  "Style: Default,Arial,20,&H00FFFFFF,&H000000FF,&H00000000,&H80000000,0,0,0,0,100,100,0,0,1,2,2,2,10,10,10,1\n" ++
  "Style: Title,Arial,24,&H00FFFFFF,&H000000FF,&H00000000,&H80000000,-1,0,0,0,100,100,0,0,1,2,2,8,10,10,10,1\n" ++
  "Style: Italic,Arial,20,&H00FFFFFF,&H000000FF,&H00000000,&H80000000,0,-1,0,0,100,100,0,0,1,2,2,2,10,10,10,1\n" ++
  "\n[Events]\n" ++
  "Format: Layer, Start, End, Style, Name, MarginL, MarginR, MarginV, Effect, Text\n"

/-- The dialogue line rendered for one record. -/
def dialogueLine (e : SubtitleEntry) : String :=
  "Dialogue: 0," ++ e.start ++ "," ++ e.endTime ++ "," ++ e.style ++
    ",,0,0,0,," ++ e.text

/-- Model of `writeASSFile`: the header, then one dialogue line with a
trailing newline per record, in the given order. String building cannot
throw, so the defensive catches of the source are dead code. -/
def writeASSFile (subtitles : List SubtitleEntry) : String :=
  assHeader ++ String.join (subtitles.map (fun e => dialogueLine e ++ "\n"))

/-- Result record of `convertToASS`. Fields absent in the source object
are `none`. -/
structure ConversionResult where
  success : Bool
  content : Option String
  error : Option String
  subtitleCount : Option Nat
deriving Repr, DecidableEq

/-- Model of `convertToASS`: parse, fail with the no-valid-subtitles
error when nothing parsed, otherwise validate timing, render, and report
the record count. Nothing in the pipeline below can throw, so the outer
catch is dead code. -/
def convertToASS (srtContent : String) : ConversionResult :=
  if (parseSRTFile srtContent).isEmpty then
    { success := false, content := none,
      error := some "No valid subtitles found in the SRT file",
      subtitleCount := none }
  else
    { success := true,
      content := some (writeASSFile (validateSubtitleTiming (parseSRTFile srtContent))),
      error := none,
      subtitleCount := some (validateSubtitleTiming (parseSRTFile srtContent)).length }

/-- The lines of a rendered document that begin with `Dialogue:`. -/
def dialogueLines (s : String) : List String :=
  ((splitOnChar '\n' s.data).filter
    (fun l => "Dialogue:".data.isPrefixOf l)).map String.mk

/-- How many lines of a rendered document begin with `Dialogue:`. -/
def dialogueLineCount (s : String) : Nat := (dialogueLines s).length

/-! ## Helper lemmas -/

theorem replaceAllAux_unmatched {pat rep : List Char} (fuel : Nat)
    (l : List Char) (h : ¬ pat <:+: l) : replaceAllAux pat rep fuel l = l := by
  induction fuel generalizing l with
  | zero => rfl
  | succ fuel ih =>
    cases l with
    | nil => rfl
    | cons c t =>
      rw [replaceAllAux, if_neg]
      · rw [ih t (fun hinf => h (List.infix_cons hinf))]
      · rintro ⟨h1, h2⟩
        exact h (List.IsPrefix.isInfix (List.isPrefixOf_iff_prefix.mp h2))

theorem replaceAll_unmatched {pat rep l : List Char}
    (h : ¬ pat <:+: l) : replaceAll pat rep l = l :=
  replaceAllAux_unmatched l.length l h

theorem foldl_replaceAll_id (table : List (String × String)) (l : List Char)
    (h : ∀ p ∈ table, ¬ (p.1.data <:+: l)) :
    table.foldl (fun t p => replaceAll p.1.data p.2.data t) l = l := by
  induction table with
  | nil => rfl
  | cons p ps ih =>
    simp only [List.foldl_cons]
    rw [replaceAll_unmatched (h p (List.mem_cons_self p ps))]
    exact ih (fun q hq => h q (List.mem_cons_of_mem p hq))

/-! ## Claim C9 -/

/-- Claim C9: for every already-correct text (no mojibake pattern of the
substitution table occurs as a substring), applying the Encoding Fixer
twice yields the same text as applying it once; moreover such unmatched
text passes through unchanged. -/
theorem C9_fixEncodingArtifacts_idempotent (t : String)
    (h : ∀ p ∈ encodingFixes, ¬ (p.1.data <:+: t.data)) :
    fixEncodingArtifacts (fixEncodingArtifacts t) = fixEncodingArtifacts t ∧
    fixEncodingArtifacts t = t := by
  have hid : fixEncodingArtifacts t = t := by
    unfold fixEncodingArtifacts
    rw [foldl_replaceAll_id encodingFixes t.data h]
  refine ⟨?_, hid⟩
  rw [hid]
  exact hid

/-- Witness for C9 at a concrete mojibake-free text. -/
theorem C9_witness :
    (∀ p ∈ encodingFixes, ¬ (p.1.data <:+: "Hello xin chao".data)) ∧
    fixEncodingArtifacts (fixEncodingArtifacts "Hello xin chao") =
      fixEncodingArtifacts "Hello xin chao" ∧
    fixEncodingArtifacts "Hello xin chao" = "Hello xin chao" := by
  have h : ∀ p ∈ encodingFixes, ¬ (p.1.data <:+: "Hello xin chao".data) := by decide
  exact ⟨h, C9_fixEncodingArtifacts_idempotent "Hello xin chao" h⟩

/-! ## Claim C8 -/

/-- Claim C8: for every input string in which the timestamp pattern
finds no match, `parseSRTTime` returns the sentinel `0:00:00.00` (the
internal throw is caught inside the function itself, so no exception
escapes; the model is a total function). -/
theorem C8_parseSRTTime_sentinel (s : String)
    (h : searchTS (jsReplaceFirst [','] ['.'] (jsTrim s.data)) = none) :
    parseSRTTime s = "0:00:00.00" := by
  simp only [parseSRTTime, h]

/-- Witness for C8 at the concrete input of the claim. -/
theorem C8_witness :
    searchTS (jsReplaceFirst [','] ['.'] (jsTrim "not-a-time".data)) = none ∧
    parseSRTTime "not-a-time" = "0:00:00.00" := by
  have h : searchTS (jsReplaceFirst [','] ['.'] (jsTrim "not-a-time".data)) = none := by
    decide
  exact ⟨h, C8_parseSRTTime_sentinel "not-a-time" h⟩

/-! ## Claim C2 -/

/-- Counterexample to claim C2: the two-line cue wholly wrapped in an
italic tag does not come out as `Hello\\NWorld` with style `Italic`. -/
theorem C2_counterexample :
    cleanAndFormatText "<i>Hello\nWorld</i>" ≠
      { cleanedText := "Hello\\NWorld", style := "Italic" } := by
  decide

/-- Claim C2 as amended: the italic-detection regex
`/<i>.*<\/i>/i` cannot span a line break (the dot does not match line
terminators), so on the two-line cue `<i>Hello\nWorld</i>` no italic is
detected, the tags are not stripped (no other tag pattern matches the
letter `i`), and the formatter returns `<i>Hello\\NWorld</i>` with style
`Default`; an italic wrapping confined to one line is detected and
stripped, with style `Italic`. -/
theorem C2_amended :
    cleanAndFormatText "<i>Hello\nWorld</i>" =
      { cleanedText := "<i>Hello\\NWorld</i>", style := "Default" } ∧
    cleanAndFormatText "<i>Hello World</i>" =
      { cleanedText := "Hello World", style := "Italic" } := by
  exact ⟨by decide, by decide⟩

/-! ## Claim C3 -/

/-- Counterexample to claim C3: empty and whitespace-only input produce
a failure carrying exactly the same no-valid-subtitles error message as
a non-empty document with zero parseable blocks, not a distinct
empty-document error. -/
theorem C3_counterexample :
    (convertToASS "").success = false ∧
    (convertToASS "").error = some "No valid subtitles found in the SRT file" ∧
    (convertToASS "garbage text").success = false ∧
    (convertToASS "").error = (convertToASS "garbage text").error := by
  exact ⟨by decide, by decide, by decide, by decide⟩

/-- Claim C3 as amended: for empty or whitespace-only input `convert`
returns a failure result, but it carries the same no-valid-subtitles
error as a non-empty document with zero parseable blocks: the
empty-document throw inside `parseSRTFile` is swallowed by the catch of
that same function, which returns the empty list. -/
theorem C3_amended (s : String) (h : jsTrim s.data = []) :
    convertToASS s =
      { success := false, content := none,
        error := some "No valid subtitles found in the SRT file",
        subtitleCount := none } := by
  unfold convertToASS parseSRTFile
  rw [if_pos h]
  rfl

/-- Witness for the amended C3 at the empty and a whitespace-only
input. -/
theorem C3_witness :
    jsTrim "".data = [] ∧ jsTrim " \n ".data = [] ∧
    convertToASS "" =
      { success := false, content := none,
        error := some "No valid subtitles found in the SRT file",
        subtitleCount := none } ∧
    convertToASS " \n " =
      { success := false, content := none,
        error := some "No valid subtitles found in the SRT file",
        subtitleCount := none } := by
  exact ⟨by decide, by decide, C3_amended "" (by decide), C3_amended " \n " (by decide)⟩

/-! ## Claim C4 -/

/-- Claim C4 names a behaviour of dead code: the digit-extraction
fallback sits in a `catch` around `Number.parseInt`, but `Number.parseInt`
never throws — it yields `NaN`. A block whose first line contains no
digits at all is therefore not rejected; it is accepted with a `NaN` cue
number, as this evaluation of the model shows. -/
theorem C4_dead_fallback :
    parseSRTBlock "Cue one\n00:00:01,000 --> 00:00:02,000\nHi" =
      some { number := none, start := "0:00:01.00", endTime := "0:00:02.00",
             text := "Hi", style := "Default", originalText := "Hi" } := by
  decide

/-! ## Claim C7 -/

/-- Counterexample to claim C7: on the empty input string the Text
Formatter returns the empty cleaned text (the falsy-input early return),
so the returned text is not non-empty for every input string. -/
theorem C7_counterexample :
    cleanAndFormatText "" = { cleanedText := "", style := "Default" } := by
  decide

/-- Claim C7 as amended: for every non-empty input string the Text
Formatter returns a non-empty cleaned text — when cleaning yields an
empty result it falls back to the original text with whitespace
collapsed, and when that is also empty it substitutes the literal
placeholder; only the empty input string itself maps to empty output. -/
theorem C7_amended (t : String) (h : t ≠ "") :
    (cleanAndFormatText t).cleanedText ≠ "" := by
  unfold cleanAndFormatText
  rw [if_neg h]
  intro hc
  have hdata : ∀ l style, (FormattedText.mk (String.mk l) style).cleanedText = "" → l = [] := by
    intro l style hl
    exact congrArg String.data hl
  exact finalizeText_ne_nil _ _ (hdata _ _ hc)

/-- Witness for the amended C7. -/
theorem C7_witness :
    ("x" : String) ≠ "" ∧ (cleanAndFormatText "x").cleanedText ≠ "" := by
  exact ⟨by decide, C7_amended "x" (by decide)⟩

/-! ## Claim C6 -/

/-- Claim C6: a record whose end time is not strictly later than its
start time (both compared as total time after decomposition) gets its
end time set to start plus one second (one hundred centiseconds),
re-serialised through the validator formatter; all other fields are
unchanged. -/
theorem C6_validateSubtitleTiming_fix (e : SubtitleEntry) (sc ec : Nat)
    (hst : timeToCs e.start = some sc) (het : timeToCs e.endTime = some ec)
    (hle : ec ≤ sc) :
    validateSubtitleTiming [e] = [{ e with endTime := csToAss (sc + 100) }] := by
  unfold validateSubtitleTiming fixEntryTiming
  rw [List.map_singleton, hst, het]
  simp [hle]

/-- Witness for C6 at the concrete record of the claim: start
`0:00:05.00` with end `0:00:03.00` becomes end `0:00:06.00`. -/
theorem C6_witness :
    timeToCs "0:00:05.00" = some 500 ∧ timeToCs "0:00:03.00" = some 300 ∧
    validateSubtitleTiming
        [{ number := some 1, start := "0:00:05.00", endTime := "0:00:03.00",
           text := "t", style := "Default", originalText := "t" }] =
      [{ number := some 1, start := "0:00:05.00", endTime := "0:00:06.00",
         text := "t", style := "Default", originalText := "t" }] := by
  refine ⟨by decide, by decide, ?_⟩
  have h := C6_validateSubtitleTiming_fix
    { number := some 1, start := "0:00:05.00", endTime := "0:00:03.00",
      text := "t", style := "Default", originalText := "t" }
    500 300 (by decide) (by decide) (by decide)
  rw [h]
  decide

/-! ## Claim C10 -/

theorem isDigit_toNat {c : Char} (h : c.isDigit = true) :
    48 ≤ c.toNat ∧ c.toNat ≤ 57 := by
  simp [Char.isDigit, Char.le_def] at h
  obtain ⟨h1, h2⟩ := h
  exact ⟨h1, h2⟩

theorem digitVal_le {c : Char} (h : c.isDigit = true) : digitVal c ≤ 9 := by
  obtain ⟨h1, h2⟩ := isDigit_toNat h
  unfold digitVal
  omega

theorem digitsValFold_lt (l : List Char) : ∀ acc : Nat,
    (∀ c ∈ l, c.isDigit = true) →
    l.foldl (fun a c => 10 * a + digitVal c) acc < (acc + 1) * 10 ^ l.length := by
  induction l with
  | nil => intro acc _; simp
  | cons c t ih =>
    intro acc h
    have hc : digitVal c ≤ 9 := digitVal_le (h c (List.mem_cons_self c t))
    have ht := ih (10 * acc + digitVal c) (fun x hx => h x (List.mem_cons_of_mem c hx))
    have hstep : (10 * acc + digitVal c + 1) * 10 ^ t.length ≤
        (acc + 1) * 10 ^ (t.length + 1) := by
      have : 10 * acc + digitVal c + 1 ≤ (acc + 1) * 10 := by omega
      calc (10 * acc + digitVal c + 1) * 10 ^ t.length
          ≤ (acc + 1) * 10 * 10 ^ t.length := Nat.mul_le_mul_right _ this
        _ = (acc + 1) * 10 ^ (t.length + 1) := by ring
    simp only [List.foldl_cons, List.length_cons]
    omega

theorem digitsVal_lt {l : List Char} (h : ∀ c ∈ l, c.isDigit = true) :
    digitsVal l < 10 ^ l.length := by
  have := digitsValFold_lt l 0 h
  simpa [digitsVal] using this

/-- The fractional group of any timestamp match candidate is one to
three decimal digits. -/
theorem tsTail_fr {hh rest : List Char} {m : TSMatch} (h : m ∈ tsTail hh rest) :
    m.fr ≠ [] ∧ m.fr.length ≤ 3 ∧ ∀ c ∈ m.fr, c.isDigit = true := by
  unfold tsTail at h
  split at h
  case h_2 => simp at h
  case h_1 rest m1 m2 s1 s2 sp rest2 =>
    split at h
    case isFalse => simp at h
    case isTrue =>
      have hsub : ∀ x ∈ rest2.takeWhile Char.isDigit, x.isDigit = true :=
        fun x hx => List.mem_takeWhile_imp hx
      split at h
      case h_1 => simp at h
      case h_2 f1 heq =>
        simp only [List.mem_singleton] at h
        subst h
        refine ⟨by simp, by simp, ?_⟩
        intro x hx
        simp only [List.mem_singleton] at hx
        subst hx
        exact hsub x (by rw [heq]; simp)
      case h_3 f1 f2 heq =>
        simp only [List.mem_cons, List.mem_singleton, List.not_mem_nil, or_false] at h
        rcases h with h | h <;> subst h
        · refine ⟨by simp, by simp, ?_⟩
          intro x hx
          simp only [List.mem_cons, List.mem_singleton, List.not_mem_nil, or_false] at hx
          rcases hx with hx | hx <;> subst hx <;> exact hsub _ (by rw [heq]; simp)
        · refine ⟨by simp, by simp, ?_⟩
          intro x hx
          simp only [List.mem_singleton] at hx
          subst hx
          exact hsub _ (by rw [heq]; simp)
      case h_4 f1 f2 f3 frest heq =>
        simp only [List.mem_cons, List.mem_singleton, List.not_mem_nil, or_false] at h
        rcases h with h | h | h <;> subst h
        · refine ⟨by simp, by simp, ?_⟩
          intro x hx
          simp only [List.mem_cons, List.mem_singleton, List.not_mem_nil, or_false] at hx
          rcases hx with hx | hx | hx <;> subst hx <;> exact hsub _ (by rw [heq]; simp)
        · refine ⟨by simp, by simp, ?_⟩
          intro x hx
          simp only [List.mem_cons, List.mem_singleton, List.not_mem_nil, or_false] at hx
          rcases hx with hx | hx <;> subst hx <;> exact hsub _ (by rw [heq]; simp)
        · refine ⟨by simp, by simp, ?_⟩
          intro x hx
          simp only [List.mem_singleton] at hx
          subst hx
          exact hsub _ (by rw [heq]; simp)

theorem tsCandsOne_fr {l : List Char} {m : TSMatch} (h : m ∈ tsCandsOne l) :
    m.fr ≠ [] ∧ m.fr.length ≤ 3 ∧ ∀ c ∈ m.fr, c.isDigit = true := by
  unfold tsCandsOne at h
  split at h
  · split at h
    · exact tsTail_fr h
    · simp at h
  · simp at h

theorem tsCandsAt_fr {l : List Char} {m : TSMatch} (h : m ∈ tsCandsAt l) :
    m.fr ≠ [] ∧ m.fr.length ≤ 3 ∧ ∀ c ∈ m.fr, c.isDigit = true := by
  unfold tsCandsAt at h
  split at h
  · split at h
    · exact tsTail_fr h
    · exact tsCandsOne_fr h
  · exact tsCandsOne_fr h

theorem searchTS_fr {l : List Char} {m : TSMatch} (h : searchTS l = some m) :
    m.fr ≠ [] ∧ m.fr.length ≤ 3 ∧ ∀ c ∈ m.fr, c.isDigit = true := by
  induction l with
  | nil => simp [searchTS] at h
  | cons c t ih =>
    rw [searchTS] at h
    cases hh : (tsCandsAt (c :: t)).head? with
    | none =>
      rw [hh] at h
      exact ih h
    | some m0 =>
      rw [hh] at h
      obtain rfl : m0 = m := by injection h
      obtain ⟨ys, hys⟩ := List.head?_eq_some_iff.mp hh
      exact tsCandsAt_fr (by rw [hys]; exact List.mem_cons_self _ _)

/-- The millisecond value computed by `parseSRTTime` from any matched
fractional group (padded right to three digits, then truncated to
three) is below 1000. -/
theorem matched_ms_lt {m : TSMatch}
    (hfr : m.fr ≠ [] ∧ m.fr.length ≤ 3 ∧ ∀ c ∈ m.fr, c.isDigit = true) :
    digitsVal ((m.fr ++ List.replicate (3 - m.fr.length) '0').take 3) < 1000 := by
  obtain ⟨-, h3, hd⟩ := hfr
  have hlen : ((m.fr ++ List.replicate (3 - m.fr.length) '0').take 3).length ≤ 3 := by
    simp [List.length_take]
  have hdig : ∀ c ∈ (m.fr ++ List.replicate (3 - m.fr.length) '0').take 3,
      c.isDigit = true := by
    intro c hc
    have hc2 := List.mem_of_mem_take hc
    rcases List.mem_append.mp hc2 with hc3 | hc3
    · exact hd c hc3
    · rw [List.eq_of_mem_replicate hc3]
      decide
  have := digitsVal_lt hdig
  calc digitsVal ((m.fr ++ List.replicate (3 - m.fr.length) '0').take 3)
      < 10 ^ ((m.fr ++ List.replicate (3 - m.fr.length) '0').take 3).length := this
    _ ≤ 10 ^ 3 := Nat.pow_le_pow_right (by omega) hlen
    _ = 1000 := by norm_num

/-- Spec-side predicate, written from the words of claim C10: the
string contains somewhere a substring of the form `D:DD:DD` or
`DD:DD:DD` followed by a comma or period and one to three digits, with
minutes and seconds in valid range (one to three digits are always a
valid millisecond count). -/
def validTS1At (l : List Char) : Bool :=
  match l with
  | a :: ':' :: m1 :: m2 :: ':' :: s1 :: s2 :: p :: f1 :: _ =>
    a.isDigit && m1.isDigit && m2.isDigit && s1.isDigit && s2.isDigit &&
      (p == ',' || p == '.') && f1.isDigit &&
      decide (digitsVal [m1, m2] < 60) && decide (digitsVal [s1, s2] < 60)
  | _ => false

/-- Two-digit-hours variant of `validTS1At`. -/
def validTS2At (l : List Char) : Bool :=
  match l with
  | a :: b :: ':' :: m1 :: m2 :: ':' :: s1 :: s2 :: p :: f1 :: _ =>
    a.isDigit && b.isDigit && m1.isDigit && m2.isDigit && s1.isDigit &&
      s2.isDigit && (p == ',' || p == '.') && f1.isDigit &&
      decide (digitsVal [m1, m2] < 60) && decide (digitsVal [s1, s2] < 60)
  | _ => false

/-- Some suffix of the list satisfies `p`. -/
def anySuffix (p : List Char → Bool) : List Char → Bool
  | [] => p []
  | c :: t => p (c :: t) || anySuffix p t

/-- Spec-side containment check for claim C10. -/
def containsValidSRTTimestamp (s : String) : Bool :=
  anySuffix (fun l => validTS1At l || validTS2At l) s.data

/-- Counterexample to claim C10: this input contains the valid
timestamp `2:00:00,0`, yet the parser returns the sentinel, because the
unanchored search finds the earlier occurrence `1:99:99,9` first and its
out-of-range minutes and seconds abort parsing (the search is not
retried after validation fails). -/
theorem C10_counterexample :
    containsValidSRTTimestamp "1:99:99,9 2:00:00,0" = true ∧
    parseSRTTime "1:99:99,9 2:00:00,0" = "0:00:00.00" ∧
    parseSRTTime "1:99:99,9 2:00:00,0" ≠ "2:00:00.00" := by
  exact ⟨by decide, by decide, by decide⟩

/-- Claim C10 as amended: the timestamp search is unanchored, so
arbitrary text around a timestamp is ignored — but it is the first
(leftmost, greedy) occurrence of the pattern that is taken, and the
parser succeeds exactly when that occurrence has valid minutes and
seconds; a later valid timestamp cannot rescue an earlier invalid one. -/
theorem C10_amended (s : String) (m : TSMatch)
    (hm : searchTS (jsReplaceFirst [','] ['.'] (jsTrim s.data)) = some m)
    (h60m : digitsVal m.mm < 60) (h60s : digitsVal m.ss < 60) :
    parseSRTTime s = String.mk (assFormatTime (digitsVal m.hh) (digitsVal m.mm)
      (digitsVal m.ss)
      (digitsVal ((m.fr ++ List.replicate (3 - m.fr.length) '0').take 3) / 10)) := by
  have hms := matched_ms_lt (searchTS_fr hm)
  simp only [parseSRTTime, hm]
  rw [if_neg]
  simp only [decide_eq_true_eq, Bool.or_eq_true, not_or]
  omega

/-- Witness for the amended C10: surrounding text does not disturb the
parse of the first valid timestamp. -/
theorem C10_witness :
    parseSRTTime "abc 00:01:23,456 xyz" = "0:01:23.45" := by
  have hm : searchTS (jsReplaceFirst [','] ['.'] (jsTrim "abc 00:01:23,456 xyz".data)) =
      some ⟨['0', '0'], ['0', '1'], ['2', '3'], '.', ['4', '5', '6'], " xyz".data⟩ := by
    decide
  have h := C10_amended "abc 00:01:23,456 xyz" _ hm (by decide) (by decide)
  rw [h]
  decide

/-! ## Claim C5 -/

theorem data_mk (l : List Char) : (String.mk l).data = l := rfl

theorem digit_beq_false {c : Char} (h : c.isDigit = true) (d : Char)
    (hd : d.toNat < 48 ∨ 57 < d.toNat) : (c == d) = false := by
  obtain ⟨h1, h2⟩ := isDigit_toNat h
  rw [beq_eq_false_iff_ne]
  intro he
  subst he
  omega

theorem digit_beq_false_rev {c : Char} (h : c.isDigit = true) (d : Char)
    (hd : d.toNat < 48 ∨ 57 < d.toNat) : (d == c) = false := by
  obtain ⟨h1, h2⟩ := isDigit_toNat h
  rw [beq_eq_false_iff_ne]
  intro he
  subst he
  omega

theorem digit_ne {c : Char} (h : c.isDigit = true) (d : Char)
    (hd : d.toNat < 48 ∨ 57 < d.toNat) : c ≠ d := by
  have := digit_beq_false h d hd
  simpa using this

theorem jsIsWs_false_of_digit {c : Char} (h : c.isDigit = true) :
    jsIsWs c = false := by
  obtain ⟨h1, h2⟩ := isDigit_toNat h
  unfold jsIsWs
  rw [digit_beq_false h ' ' (by decide), digit_beq_false h '\t' (by decide),
    digit_beq_false h '\n' (by decide), digit_beq_false h '\r' (by decide),
    digit_beq_false h (Char.ofNat 0x0b) (by decide),
    digit_beq_false h (Char.ofNat 0x0c) (by decide),
    digit_beq_false h (Char.ofNat 0xa0) (by decide),
    digit_beq_false h (Char.ofNat 0xfeff) (by decide),
    digit_beq_false h (Char.ofNat 0x1680) (by decide),
    digit_beq_false h (Char.ofNat 0x2028) (by decide),
    digit_beq_false h (Char.ofNat 0x2029) (by decide),
    digit_beq_false h (Char.ofNat 0x202f) (by decide),
    digit_beq_false h (Char.ofNat 0x205f) (by decide),
    digit_beq_false h (Char.ofNat 0x3000) (by decide)]
  simp only [Bool.false_or]
  have hlt : ¬ (0x2000 ≤ c.toNat) := by omega
  simp [hlt]

/-- Strings whose characters are all non-whitespace are unchanged by
trimming. -/
theorem jsTrim_of_no_ws {l : List Char} (h : ∀ c ∈ l, jsIsWs c = false) :
    jsTrim l = l := by
  have e : ∀ l' : List Char, (∀ c ∈ l', jsIsWs c = false) →
      l'.dropWhile jsIsWs = l' := by
    intro l' h'
    cases l' with
    | nil => rfl
    | cons c t =>
      rw [List.dropWhile_cons, if_neg (by simp [h' c (List.mem_cons_self c t)])]
  unfold jsTrim
  rw [e l h, e l.reverse (fun c hc => h c (List.mem_reverse.mp hc)),
    List.reverse_reverse]

/-- The first-occurrence comma replacement on a string whose single
comma follows a comma-free prefix. -/
theorem jsReplaceFirst_comma (l1 l2 : List Char)
    (h : ∀ c ∈ l1, (',' == c) = false) :
    jsReplaceFirst [','] ['.'] (l1 ++ ',' :: l2) = l1 ++ '.' :: l2 := by
  induction l1 with
  | nil => simp [jsReplaceFirst, List.isPrefixOf]
  | cons c t ih =>
    rw [List.cons_append, jsReplaceFirst, if_neg, ih (fun x hx => h x (List.mem_cons_of_mem c hx))]
    · rfl
    · simp [List.isPrefixOf, h c (List.mem_cons_self c t)]

/-- The timestamp tail matcher on a canonical
`MM:SS.fff` tail made of digit characters. -/
theorem tsTail_canonical (hh : List Char) (m1 m2 s1 s2 f1 f2 f3 : Char)
    (hm1 : m1.isDigit = true) (hm2 : m2.isDigit = true)
    (hs1 : s1.isDigit = true) (hs2 : s2.isDigit = true)
    (hf1 : f1.isDigit = true) (hf2 : f2.isDigit = true)
    (hf3 : f3.isDigit = true) :
    tsTail hh (m1 :: m2 :: ':' :: s1 :: s2 :: '.' :: f1 :: f2 :: f3 :: []) =
      [⟨hh, [m1, m2], [s1, s2], '.', [f1, f2, f3], []⟩,
       ⟨hh, [m1, m2], [s1, s2], '.', [f1, f2], [f3]⟩,
       ⟨hh, [m1, m2], [s1, s2], '.', [f1], [f2, f3]⟩] := by
  simp only [tsTail]
  rw [if_pos (by simp [hm1, hm2, hs1, hs2])]
  have ht : ([f1, f2, f3] : List Char).takeWhile Char.isDigit = [f1, f2, f3] := by
    simp [List.takeWhile_cons, hf1, hf2, hf3]
  rw [ht]
  rfl

/-- The candidate matcher falls back to the one-digit-hours branch when
the character after `a :: ':'` is not a colon. -/
theorem tsCandsAt_one_digit {a m1 : Char} {r : List Char} (hm1 : m1 ≠ ':') :
    tsCandsAt (a :: ':' :: m1 :: r) = tsCandsOne (a :: ':' :: m1 :: r) := by
  rw [tsCandsAt.eq_def]
  split
  next heq =>
    injection heq with h1 heq
    injection heq with h2 heq
    injection heq with h3 heq
    exact absurd h3 hm1
  next => rfl

/-- The leftmost timestamp match on a canonical two-digit-hours
timestamp. -/
theorem searchTS_canonical_two (a b m1 m2 s1 s2 f1 f2 f3 : Char)
    (ha : a.isDigit = true) (hb : b.isDigit = true)
    (hm1 : m1.isDigit = true) (hm2 : m2.isDigit = true)
    (hs1 : s1.isDigit = true) (hs2 : s2.isDigit = true)
    (hf1 : f1.isDigit = true) (hf2 : f2.isDigit = true)
    (hf3 : f3.isDigit = true) :
    searchTS (a :: b :: ':' :: m1 :: m2 :: ':' :: s1 :: s2 :: '.' ::
        f1 :: f2 :: f3 :: []) =
      some ⟨[a, b], [m1, m2], [s1, s2], '.', [f1, f2, f3], []⟩ := by
  rw [searchTS]
  have hc : tsCandsAt (a :: b :: ':' :: m1 :: m2 :: ':' :: s1 :: s2 :: '.' ::
      f1 :: f2 :: f3 :: []) =
      [⟨[a, b], [m1, m2], [s1, s2], '.', [f1, f2, f3], []⟩,
       ⟨[a, b], [m1, m2], [s1, s2], '.', [f1, f2], [f3]⟩,
       ⟨[a, b], [m1, m2], [s1, s2], '.', [f1], [f2, f3]⟩] := by
    simp only [tsCandsAt]
    rw [if_pos (by simp [ha, hb])]
    exact tsTail_canonical [a, b] m1 m2 s1 s2 f1 f2 f3 hm1 hm2 hs1 hs2 hf1 hf2 hf3
  rw [hc]
  rfl

/-- The leftmost timestamp match on a canonical one-digit-hours
timestamp. -/
theorem searchTS_canonical_one (a m1 m2 s1 s2 f1 f2 f3 : Char)
    (ha : a.isDigit = true)
    (hm1 : m1.isDigit = true) (hm2 : m2.isDigit = true)
    (hs1 : s1.isDigit = true) (hs2 : s2.isDigit = true)
    (hf1 : f1.isDigit = true) (hf2 : f2.isDigit = true)
    (hf3 : f3.isDigit = true) :
    searchTS (a :: ':' :: m1 :: m2 :: ':' :: s1 :: s2 :: '.' ::
        f1 :: f2 :: f3 :: []) =
      some ⟨[a], [m1, m2], [s1, s2], '.', [f1, f2, f3], []⟩ := by
  rw [searchTS]
  have hc : tsCandsAt (a :: ':' :: m1 :: m2 :: ':' :: s1 :: s2 :: '.' ::
      f1 :: f2 :: f3 :: []) =
      [⟨[a], [m1, m2], [s1, s2], '.', [f1, f2, f3], []⟩,
       ⟨[a], [m1, m2], [s1, s2], '.', [f1, f2], [f3]⟩,
       ⟨[a], [m1, m2], [s1, s2], '.', [f1], [f2, f3]⟩] := by
    rw [tsCandsAt_one_digit (digit_ne hm1 ':' (by decide))]
    simp only [tsCandsOne]
    rw [if_pos ha]
    exact tsTail_canonical [a] m1 m2 s1 s2 f1 f2 f3 hm1 hm2 hs1 hs2 hf1 hf2 hf3
  rw [hc]
  rfl

/-- The canonical SRT timestamp string `H:MM:SS,mmm` (hours written with
one or two digits) assembled from digit characters. -/
def srtTimestamp (hs : List Char) (m1 m2 s1 s2 f1 f2 f3 : Char) : String :=
  String.mk (hs ++ ':' :: m1 :: m2 :: ':' :: s1 :: s2 :: ',' ::
    f1 :: f2 :: f3 :: [])

/-- Claim C5: for every timestamp string of the form `H:MM:SS,mmm`
(one- or two-digit hours, minutes below sixty, seconds below sixty,
three millisecond digits), parsing then formatting yields the ASS
timestamp whose centisecond field is the millisecond value divided by
ten with integer truncation — not rounding. Hours are re-rendered from
their numeric value (so `00` comes out as `0`, as in the example
`00:01:23,456` to `0:01:23.45` checked by the witness). -/
theorem C5_parseSRTTime_roundtrip (hs : List Char) (m1 m2 s1 s2 f1 f2 f3 : Char)
    (hlen : hs.length = 1 ∨ hs.length = 2)
    (hd : ∀ c ∈ hs, c.isDigit = true)
    (hm1 : m1.isDigit = true) (hm2 : m2.isDigit = true)
    (hs1 : s1.isDigit = true) (hs2 : s2.isDigit = true)
    (hf1 : f1.isDigit = true) (hf2 : f2.isDigit = true)
    (hf3 : f3.isDigit = true)
    (h60m : digitsVal [m1, m2] < 60) (h60s : digitsVal [s1, s2] < 60) :
    parseSRTTime (srtTimestamp hs m1 m2 s1 s2 f1 f2 f3) =
      String.mk (assFormatTime (digitsVal hs) (digitsVal [m1, m2])
        (digitsVal [s1, s2]) (digitsVal [f1, f2, f3] / 10)) := by
  have hmslt : digitsVal [f1, f2, f3] < 1000 := by
    have := digitsVal_lt (l := [f1, f2, f3]) (by
      intro c hc
      simp only [List.mem_cons, List.not_mem_nil, or_false] at hc
      rcases hc with rfl | rfl | rfl <;> assumption)
    simpa using this
  have hvalid : ¬ ((decide (digitsVal [m1, m2] ≥ 60) ||
      decide (digitsVal [s1, s2] ≥ 60) ||
      decide (digitsVal [f1, f2, f3] ≥ 1000)) = true) := by
    simp only [decide_eq_true_eq, Bool.or_eq_true, not_or]
    omega
  rcases hlen with h1 | h2
  · obtain ⟨a, rfl⟩ : ∃ a, hs = [a] := by
      cases hs with
      | nil => simp at h1
      | cons x t =>
        cases t with
        | nil => exact ⟨x, rfl⟩
        | cons y u => simp at h1
    have ha : a.isDigit = true := hd a (by simp)
    have hnws : ∀ c ∈ ([a] : List Char) ++ ':' :: m1 :: m2 :: ':' :: s1 :: s2 :: ',' ::
        f1 :: f2 :: f3 :: [], jsIsWs c = false := by
      intro c hc
      simp only [List.cons_append, List.nil_append, List.mem_cons,
        List.not_mem_nil, or_false] at hc
      rcases hc with rfl | rfl | rfl | rfl | rfl | rfl | rfl | rfl | rfl | rfl | rfl <;>
        first
        | decide
        | exact jsIsWs_false_of_digit ‹_›
    have hcomma : ∀ c ∈ ([a] : List Char) ++ [':', m1, m2, ':', s1, s2],
        (',' == c) = false := by
      intro c hc
      simp only [List.cons_append, List.nil_append, List.mem_cons,
        List.not_mem_nil, or_false] at hc
      rcases hc with rfl | rfl | rfl | rfl | rfl | rfl | rfl <;>
        first
        | decide
        | exact digit_beq_false_rev ‹_› ',' (by decide)
    simp only [parseSRTTime, srtTimestamp, data_mk, List.cons_append, List.nil_append]
    rw [jsTrim_of_no_ws (by simpa using hnws)]
    have hrepl := jsReplaceFirst_comma ([a] ++ [':', m1, m2, ':', s1, s2])
      (f1 :: f2 :: f3 :: []) hcomma
    simp only [List.cons_append, List.nil_append] at hrepl
    rw [hrepl, searchTS_canonical_one a m1 m2 s1 s2 f1 f2 f3 ha hm1 hm2 hs1 hs2 hf1 hf2 hf3]
    simp only
    rw [if_neg (by simpa using hvalid)]
    rfl
  · obtain ⟨a, b, rfl⟩ : ∃ a b, hs = [a, b] := by
      cases hs with
      | nil => simp at h2
      | cons x t =>
        cases t with
        | nil => simp at h2
        | cons y u =>
          cases u with
          | nil => exact ⟨x, y, rfl⟩
          | cons z v => simp at h2
    have ha : a.isDigit = true := hd a (by simp)
    have hb : b.isDigit = true := hd b (by simp)
    have hnws : ∀ c ∈ ([a, b] : List Char) ++ ':' :: m1 :: m2 :: ':' :: s1 :: s2 :: ',' ::
        f1 :: f2 :: f3 :: [], jsIsWs c = false := by
      intro c hc
      simp only [List.cons_append, List.nil_append, List.mem_cons,
        List.not_mem_nil, or_false] at hc
      rcases hc with rfl | rfl | rfl | rfl | rfl | rfl | rfl | rfl | rfl | rfl | rfl | rfl <;>
        first
        | decide
        | exact jsIsWs_false_of_digit ‹_›
    have hcomma : ∀ c ∈ ([a, b] : List Char) ++ [':', m1, m2, ':', s1, s2],
        (',' == c) = false := by
      intro c hc
      simp only [List.cons_append, List.nil_append, List.mem_cons,
        List.not_mem_nil, or_false] at hc
      rcases hc with rfl | rfl | rfl | rfl | rfl | rfl | rfl | rfl <;>
        first
        | decide
        | exact digit_beq_false_rev ‹_› ',' (by decide)
    simp only [parseSRTTime, srtTimestamp, data_mk, List.cons_append, List.nil_append]
    rw [jsTrim_of_no_ws (by simpa using hnws)]
    have hrepl := jsReplaceFirst_comma ([a, b] ++ [':', m1, m2, ':', s1, s2])
      (f1 :: f2 :: f3 :: []) hcomma
    simp only [List.cons_append, List.nil_append] at hrepl
    rw [hrepl, searchTS_canonical_two a b m1 m2 s1 s2 f1 f2 f3 ha hb hm1 hm2 hs1 hs2 hf1 hf2 hf3]
    simp only
    rw [if_neg (by simpa using hvalid)]
    rfl

/-- Witness for C5 at the concrete example of the claim:
`00:01:23,456` parses and formats to `0:01:23.45` (456 truncated to 45,
not rounded to 46). -/
theorem C5_witness :
    parseSRTTime "00:01:23,456" = "0:01:23.45" ∧
    srtTimestamp ['0', '0'] '0' '1' '2' '3' '4' '5' '6' = "00:01:23,456" := by
  have h := C5_parseSRTTime_roundtrip ['0', '0'] '0' '1' '2' '3' '4' '5' '6'
    (by decide) (by decide) (by decide) (by decide) (by decide) (by decide)
    (by decide) (by decide) (by decide) (by decide) (by decide)
  constructor
  · have he : srtTimestamp ['0', '0'] '0' '1' '2' '3' '4' '5' '6' = "00:01:23,456" := by
      decide
    rw [he] at h
    rw [h]
    decide
  · decide

/-! ## Claim C1: the cleaned cue text contains no raw newline -/

theorem mem_replaceAllAux {pat rep : List Char} {x : Char} :
    ∀ (fuel : Nat) (l : List Char), x ∈ replaceAllAux pat rep fuel l →
    x ∈ rep ∨ x ∈ l := by
  intro fuel
  induction fuel with
  | zero => intro l h; exact Or.inr h
  | succ fuel ih =>
    intro l h
    cases l with
    | nil => simp [replaceAllAux] at h
    | cons c t =>
      rw [replaceAllAux] at h
      split at h
      · rcases List.mem_append.mp h with h1 | h1
        · exact Or.inl h1
        · rcases ih _ h1 with h2 | h2
          · exact Or.inl h2
          · exact Or.inr (List.mem_of_mem_drop h2)
      · rcases List.mem_cons.mp h with h1 | h1
        · exact Or.inr (h1 ▸ List.mem_cons_self c t)
        · rcases ih _ h1 with h2 | h2
          · exact Or.inl h2
          · exact Or.inr (List.mem_cons_of_mem c h2)

theorem not_mem_replaceAllAux_single {ch : Char} {rep : List Char}
    (hrep : ch ∉ rep) :
    ∀ (fuel : Nat) (l : List Char), l.length ≤ fuel →
    ch ∉ replaceAllAux [ch] rep fuel l := by
  intro fuel
  induction fuel with
  | zero =>
    intro l hlen
    have hl : l = [] := List.length_eq_zero.mp (by omega)
    subst hl
    simp [replaceAllAux]
  | succ fuel ih =>
    intro l hlen h
    cases l with
    | nil => simp [replaceAllAux] at h
    | cons c t =>
      rw [replaceAllAux] at h
      split at h
      next hcond =>
        rcases List.mem_append.mp h with h1 | h1
        · exact hrep h1
        · simp only [List.length_cons, List.drop_succ_cons, List.drop_zero] at h1 ⊢
          exact ih t (by simp at hlen; omega) h1
      next hcond =>
        rcases List.mem_cons.mp h with h1 | h1
        · apply hcond
          refine ⟨by simp, ?_⟩
          simp [List.isPrefixOf, h1]
        · exact ih t (by simp at hlen; omega) h1

theorem not_mem_replaceAll_single {ch : Char} {rep : List Char} (l : List Char)
    (hrep : ch ∉ rep) : ch ∉ replaceAll [ch] rep l :=
  not_mem_replaceAllAux_single hrep l.length l (by omega)

theorem mem_splitOnListAux {pat : List Char} :
    ∀ (fuel : Nat) (l : List Char), ∀ p ∈ splitOnListAux pat fuel l,
    ∀ x ∈ p, x ∈ l := by
  intro fuel
  induction fuel with
  | zero =>
    intro l p hp x hx
    simp only [splitOnListAux, List.mem_singleton] at hp
    exact hp ▸ hx
  | succ fuel ih =>
    intro l p hp x hx
    cases l with
    | nil =>
      simp only [splitOnListAux, List.mem_singleton] at hp
      subst hp
      simp at hx
    | cons c t =>
      rw [splitOnListAux] at hp
      split at hp
      · rcases List.mem_cons.mp hp with h1 | h1
        · subst h1; simp at hx
        · exact List.mem_of_mem_drop (ih _ p h1 x hx)
      · rcases hL : splitOnListAux pat fuel t with _ | ⟨s, ss⟩
        · rw [hL] at hp
          simp only [consHead, List.mem_singleton] at hp
          subst hp
          simp only [List.mem_singleton] at hx
          exact hx ▸ List.mem_cons_self c t
        · rw [hL] at hp
          simp only [consHead, List.mem_cons] at hp
          rcases hp with h1 | h1
          · subst h1
            rcases List.mem_cons.mp hx with h2 | h2
            · exact h2 ▸ List.mem_cons_self c t
            · exact List.mem_cons_of_mem c
                (ih t s (by rw [hL]; exact List.mem_cons_self s ss) x h2)
          · exact List.mem_cons_of_mem c
              (ih t p (by rw [hL]; exact List.mem_cons_of_mem s h1) x hx)

theorem mem_splitOnList {pat l : List Char} {p : List Char}
    (hp : p ∈ splitOnList pat l) {x : Char} (hx : x ∈ p) : x ∈ l :=
  mem_splitOnListAux l.length l p hp x hx

theorem mem_jsTrim {x : Char} {l : List Char} (h : x ∈ jsTrim l) : x ∈ l := by
  unfold jsTrim at h
  rw [List.mem_reverse] at h
  have h2 := (List.dropWhile_sublist jsIsWs (l := (l.dropWhile jsIsWs).reverse)).subset h
  rw [List.mem_reverse] at h2
  exact (List.dropWhile_sublist jsIsWs (l := l)).subset h2

theorem mem_joinSep {sep : List Char} :
    ∀ (ps : List (List Char)) (x : Char), x ∈ joinSep sep ps →
    x ∈ sep ∨ ∃ p ∈ ps, x ∈ p := by
  intro ps
  induction ps with
  | nil => intro x h; simp [joinSep] at h
  | cons p ps ih =>
    intro x h
    cases ps with
    | nil =>
      simp only [joinSep] at h
      exact Or.inr ⟨p, List.mem_singleton_self p, h⟩
    | cons q qs =>
      rw [show joinSep sep (p :: q :: qs) = p ++ sep ++ joinSep sep (q :: qs) from rfl] at h
      rcases List.mem_append.mp h with h1 | h1
      · rcases List.mem_append.mp h1 with h2 | h2
        · exact Or.inr ⟨p, List.mem_cons_self p _, h2⟩
        · exact Or.inl h2
      · rcases ih x h1 with h2 | ⟨r, hr, hxr⟩
        · exact Or.inl h2
        · exact Or.inr ⟨r, List.mem_cons_of_mem p hr, hxr⟩

theorem mem_collapseWsAux :
    ∀ (fuel : Nat) (l : List Char), l.length ≤ fuel → ∀ x ∈ collapseWsAux fuel l,
    x = ' ' ∨ (x ∈ l ∧ jsIsWs x = false) := by
  intro fuel
  induction fuel with
  | zero =>
    intro l hlen x hx
    have hl : l = [] := List.length_eq_zero.mp (by omega)
    subst hl
    simp [collapseWsAux] at hx
  | succ fuel ih =>
    intro l hlen x hx
    cases l with
    | nil => simp [collapseWsAux] at hx
    | cons c t =>
      rw [collapseWsAux] at hx
      split at hx
      · rcases List.mem_cons.mp hx with h1 | h1
        · exact Or.inl h1
        · have hlen2 : (t.dropWhile jsIsWs).length ≤ fuel := by
            have := dropWhileLen jsIsWs t
            simp at hlen
            omega
          rcases ih _ hlen2 x h1 with h2 | ⟨h2, h3⟩
          · exact Or.inl h2
          · exact Or.inr ⟨List.mem_cons_of_mem c
              ((List.dropWhile_sublist jsIsWs (l := t)).subset h2), h3⟩
      · rcases List.mem_cons.mp hx with h1 | h1
        · subst h1
          exact Or.inr ⟨List.mem_cons_self x t, by simp_all⟩
        · rcases ih t (by simp at hlen; omega) x h1 with h2 | ⟨h2, h3⟩
          · exact Or.inl h2
          · exact Or.inr ⟨List.mem_cons_of_mem c h2, h3⟩

theorem not_mem_collapseWs {x : Char} (l : List Char) (hx : jsIsWs x = true)
    (hsp : x ≠ ' ') : x ∉ collapseWs l := by
  intro h
  rcases mem_collapseWsAux l.length l (by omega) x h with h1 | ⟨-, h2⟩
  · exact hsp h1
  · rw [hx] at h2
    exact absurd h2 (by simp)

/-- After the newline conversion, the per-line trimming, filtering and
rejoining, no raw newline remains in the formatted text. -/
theorem no_nl_postFormat (t5 : List Char) :
    ('\n' : Char) ∉ postFormat t5 := by
  intro h
  have h1 := mem_jsTrim h
  rcases mem_joinSep _ _ h1 with h2 | ⟨p, hp, hxp⟩
  · simp at h2
  · have hp2 := List.mem_of_mem_filter hp
    obtain ⟨q, hq, rfl⟩ := List.mem_map.mp hp2
    have h3 := mem_splitOnList hq (mem_jsTrim hxp)
    exact not_mem_replaceAll_single _ (by decide) h3

theorem finalizeText_no_nl {orig t11 : List Char} (h11 : ('\n' : Char) ∉ t11) :
    ('\n' : Char) ∉ finalizeText orig t11 := by
  unfold finalizeText
  split
  · split
    · decide
    · exact not_mem_collapseWs _ (by decide) (by decide)
  · exact h11

theorem mk_cleanedText (a b : String) : (FormattedText.mk a b).cleanedText = a := rfl

theorem mk_style (a b : String) : (FormattedText.mk a b).style = b := rfl

/-- Unfolding of `cleanAndFormatText` on non-empty input. -/
theorem cleanAndFormatText_ne_empty_eq (t : String) (ht : t ≠ "") :
    cleanAndFormatText t =
      ⟨String.mk (finalizeText t.data
          (postFormat
            (if italicTest (preFormat t.data) then stripITags (preFormat t.data)
             else preFormat t.data))),
        if italicTest (preFormat t.data) then "Italic" else "Default"⟩ := by
  unfold cleanAndFormatText
  rw [if_neg ht]

theorem cleanAndFormatText_text_no_nl (t : String) :
    ('\n' : Char) ∉ (cleanAndFormatText t).cleanedText.data := by
  by_cases ht : t = ""
  · subst ht
    intro h
    rw [show cleanAndFormatText "" = ⟨"", "Default"⟩ from rfl] at h
    simp at h
  · rw [cleanAndFormatText_ne_empty_eq t ht, mk_cleanedText, data_mk]
    exact finalizeText_no_nl (no_nl_postFormat _)

theorem cleanAndFormatText_style (t : String) :
    (cleanAndFormatText t).style = "Default" ∨
    (cleanAndFormatText t).style = "Italic" := by
  by_cases ht : t = ""
  · subst ht
    exact Or.inl rfl
  · rw [cleanAndFormatText_ne_empty_eq t ht, mk_style]
    split
    · exact Or.inr rfl
    · exact Or.inl rfl

/-! ## Claim C1: rendered times, styles and fields -/

theorem isDigit_decChar (d : Nat) : (decChar d).isDigit = true := by
  have h : d % 10 < 10 := Nat.mod_lt _ (by omega)
  have h10 : d % 10 = 0 ∨ d % 10 = 1 ∨ d % 10 = 2 ∨ d % 10 = 3 ∨ d % 10 = 4 ∨
      d % 10 = 5 ∨ d % 10 = 6 ∨ d % 10 = 7 ∨ d % 10 = 8 ∨ d % 10 = 9 := by omega
  rcases h10 with h0 | h0 | h0 | h0 | h0 | h0 | h0 | h0 | h0 | h0 <;>
    simp [decChar, h0, digitChars]

theorem toDecimalDigitsAux_digits :
    ∀ (fuel n : Nat), ∀ c ∈ toDecimalDigitsAux fuel n, c.isDigit = true := by
  intro fuel
  induction fuel with
  | zero => intro n c hc; simp [toDecimalDigitsAux] at hc
  | succ fuel ih =>
    intro n c hc
    rw [toDecimalDigitsAux] at hc
    split at hc
    · simp only [List.mem_singleton] at hc
      exact hc ▸ isDigit_decChar n
    · rcases List.mem_append.mp hc with h1 | h1
      · exact ih _ c h1
      · simp only [List.mem_singleton] at h1
        exact h1 ▸ isDigit_decChar (n % 10)

theorem toDecimalDigits_digits (n : Nat) :
    ∀ c ∈ toDecimalDigits n, c.isDigit = true :=
  toDecimalDigitsAux_digits (n + 1) n

theorem padStart_chars {n : Nat} {ch : Char} {l : List Char} {c : Char}
    (h : c ∈ padStartList n ch l) : c = ch ∨ c ∈ l := by
  unfold padStartList at h
  rcases List.mem_append.mp h with h1 | h1
  · exact Or.inl (List.eq_of_mem_replicate h1)
  · exact Or.inr h1

theorem assFormatTime_chars (h m s cs : Nat) :
    ∀ c ∈ assFormatTime h m s cs, c.isDigit = true ∨ c = ':' ∨ c = '.' := by
  intro c hc
  unfold assFormatTime at hc
  simp only [List.append_assoc, List.cons_append] at hc
  rcases List.mem_append.mp hc with h1 | h1
  · exact Or.inl (toDecimalDigits_digits _ _ h1)
  rcases List.mem_cons.mp h1 with rfl | h1
  · exact Or.inr (Or.inl rfl)
  rcases List.mem_append.mp h1 with h2 | h1
  · rcases padStart_chars h2 with rfl | h3
    · exact Or.inl (by decide)
    · exact Or.inl (toDecimalDigits_digits _ _ h3)
  rcases List.mem_cons.mp h1 with rfl | h1
  · exact Or.inr (Or.inl rfl)
  rcases List.mem_append.mp h1 with h2 | h1
  · rcases padStart_chars h2 with rfl | h3
    · exact Or.inl (by decide)
    · exact Or.inl (toDecimalDigits_digits _ _ h3)
  rcases List.mem_cons.mp h1 with rfl | h1
  · exact Or.inr (Or.inr rfl)
  rcases padStart_chars h1 with rfl | h3
  · exact Or.inl (by decide)
  · exact Or.inl (toDecimalDigits_digits _ _ h3)

theorem assFormatTime_no_nl (h m s cs : Nat) :
    ('\n' : Char) ∉ assFormatTime h m s cs := by
  intro hmem
  rcases assFormatTime_chars h m s cs _ hmem with h1 | h1 | h1 <;>
    exact absurd h1 (by decide)

theorem parseSRTTime_no_nl (s : String) :
    ('\n' : Char) ∉ (parseSRTTime s).data := by
  rcases hsr : searchTS (jsReplaceFirst [','] ['.'] (jsTrim s.data)) with _ | m
  · simp only [parseSRTTime, hsr]
    decide
  · simp only [parseSRTTime, hsr]
    split
    · decide
    · rw [data_mk]
      exact assFormatTime_no_nl _ _ _ _

theorem csToAss_chars (cs : Nat) :
    ∀ c ∈ (csToAss cs).data, c.isDigit = true ∨ c = ':' ∨ c = '.' := by
  intro c hc
  unfold csToAss at hc
  rw [data_mk] at hc
  simp only [List.append_assoc, List.cons_append] at hc
  rcases List.mem_append.mp hc with h1 | h1
  · exact Or.inl (toDecimalDigits_digits _ _ h1)
  rcases List.mem_cons.mp h1 with rfl | h1
  · exact Or.inr (Or.inl rfl)
  rcases List.mem_append.mp h1 with h2 | h1
  · rcases padStart_chars h2 with rfl | h3
    · exact Or.inl (by decide)
    · exact Or.inl (toDecimalDigits_digits _ _ h3)
  rcases List.mem_cons.mp h1 with rfl | h1
  · exact Or.inr (Or.inl rfl)
  rcases padStart_chars h1 with rfl | h3
  · exact Or.inl (by decide)
  rcases List.mem_append.mp h3 with h4 | h4
  · exact Or.inl (toDecimalDigits_digits _ _ h4)
  rcases List.mem_cons.mp h4 with rfl | h4
  · exact Or.inr (Or.inr rfl)
  rcases padStart_chars h4 with rfl | h5
  · exact Or.inl (by decide)
  · exact Or.inl (toDecimalDigits_digits _ _ h5)

theorem csToAss_no_nl (c : Nat) : ('\n' : Char) ∉ (csToAss c).data := by
  intro hmem
  rcases csToAss_chars c _ hmem with h1 | h1 | h1 <;>
    exact absurd h1 (by decide)

/-- Every record produced by the block parser carries times produced by
`parseSRTTime` and text and style produced by `cleanAndFormatText`. -/
theorem parseSRTBlock_fields {b : String} {e : SubtitleEntry}
    (h : parseSRTBlock b = some e) :
    (∃ s1, e.start = parseSRTTime s1) ∧ (∃ s2, e.endTime = parseSRTTime s2) ∧
    ∃ t, e.text = (cleanAndFormatText t).cleanedText ∧
      e.style = (cleanAndFormatText t).style := by
  unfold parseSRTBlock at h
  split at h
  · exact absurd h (by simp)
  · split at h
    · exact absurd h (by simp)
    · rename_i g1 g2 heq
      injection h with h
      subst h
      exact ⟨⟨_, rfl⟩, ⟨_, rfl⟩, ⟨_, rfl, rfl⟩⟩

/-- A block that trims to nothing cannot parse (it has no lines at
all). -/
theorem parseSRTBlock_none_of_blank {b : List Char} (h : jsTrim b = []) :
    parseSRTBlock (String.mk b) = none := by
  unfold parseSRTBlock blockLines
  rw [data_mk, h]
  rfl

/-- The per-record timing fix preserves every field except possibly the
end time, which it either keeps or replaces by a re-serialised
centisecond value. -/
theorem fixEntryTiming_fields (e : SubtitleEntry) :
    (fixEntryTiming e).number = e.number ∧ (fixEntryTiming e).start = e.start ∧
    (fixEntryTiming e).text = e.text ∧ (fixEntryTiming e).style = e.style ∧
    ((fixEntryTiming e).endTime = e.endTime ∨
      ∃ c, (fixEntryTiming e).endTime = csToAss c) := by
  unfold fixEntryTiming
  split
  · split
    · exact ⟨rfl, rfl, rfl, rfl, Or.inr ⟨_, rfl⟩⟩
    · exact ⟨rfl, rfl, rfl, rfl, Or.inl rfl⟩
  · exact ⟨rfl, rfl, rfl, rfl, Or.inl rfl⟩

/-! ## Claim C1: splitting the rendered document into lines -/

theorem consHead_ne_nil (c : Char) (L : List (List Char)) : consHead c L ≠ [] := by
  cases L <;> simp [consHead]

theorem splitOnChar_ne_nil (sep : Char) (l : List Char) :
    splitOnChar sep l ≠ [] := by
  induction l with
  | nil => simp [splitOnChar]
  | cons c t ih =>
    rw [splitOnChar]
    split
    · simp
    · exact consHead_ne_nil _ _

theorem consHead_append (c : Char) {L : List (List Char)}
    (M : List (List Char)) (h : L ≠ []) :
    consHead c (L ++ M) = consHead c L ++ M := by
  cases L with
  | nil => exact absurd rfl h
  | cons s ss => simp [consHead]

theorem splitOnChar_append (sep : Char) (l1 l2 : List Char) :
    splitOnChar sep (l1 ++ sep :: l2) =
      splitOnChar sep l1 ++ splitOnChar sep l2 := by
  induction l1 with
  | nil =>
    simp only [List.nil_append]
    rw [splitOnChar]
    simp [splitOnChar]
  | cons c t ih =>
    rw [List.cons_append, splitOnChar]
    by_cases hc : (c == sep) = true
    · rw [if_pos hc, ih]
      conv_rhs => rw [splitOnChar]
      rw [if_pos hc]
      rfl
    · rw [if_neg hc, ih, consHead_append c _ (splitOnChar_ne_nil sep t)]
      conv_rhs => rw [splitOnChar]
      rw [if_neg hc]

theorem splitOnChar_no_sep {sep : Char} {l : List Char}
    (h : ∀ x ∈ l, (x == sep) = false) : splitOnChar sep l = [l] := by
  induction l with
  | nil => rfl
  | cons c t ih =>
    rw [splitOnChar, if_neg (by simp [h c (List.mem_cons_self c t)]),
      ih (fun x hx => h x (List.mem_cons_of_mem c hx))]
    rfl

/-- The fixed header minus its final newline, for reasoning about the
line structure of the rendered document. -/
def assHeaderBody : String :=
  "[Script Info]\nTitle: Converted from SRT\nScriptType: v4.00+\nWrapStyle: 0\n" ++
  "ScaledBorderAndShadow: yes\nYCbCr Matrix: TV.601\nPlayResX: 1920\nPlayResY: 1080\n" ++
  "\n[V4+ Styles]\n" ++
  "Format: Name, Fontname, Fontsize, PrimaryColour, SecondaryColour, OutlineColour, " ++
  "BackColour, Bold, Italic, Underline, StrikeOut, ScaleX, ScaleY, Spacing, Angle, " ++
  "BorderStyle, Outline, Shadow, Alignment, MarginL, MarginR, MarginV, Encoding\n" ++
  "Style: Default,Arial,20,&H00FFFFFF,&H000000FF,&H00000000,&H80000000,0,0,0,0,100,100,0,0,1,2,2,2,10,10,10,1\n" ++
  "Style: Title,Arial,24,&H00FFFFFF,&H000000FF,&H00000000,&H80000000,-1,0,0,0,100,100,0,0,1,2,2,8,10,10,10,1\n" ++
  "Style: Italic,Arial,20,&H00FFFFFF,&H000000FF,&H00000000,&H80000000,0,-1,0,0,100,100,0,0,1,2,2,2,10,10,10,1\n" ++
  "\n[Events]\n" ++
  "Format: Layer, Start, End, Style, Name, MarginL, MarginR, MarginV, Effect, Text"

theorem assHeader_split : assHeader.data = assHeaderBody.data ++ ['\n'] := by
  decide

theorem header_filter_empty :
    (splitOnChar '\n' assHeaderBody.data).filter
      (fun l => "Dialogue:".data.isPrefixOf l) = [] := by
  decide

theorem dialogueLine_data (e : SubtitleEntry) :
    (dialogueLine e).data = "Dialogue: 0,".data ++ (e.start.data ++ (",".data ++
      (e.endTime.data ++ (",".data ++ (e.style.data ++
        (",,0,0,0,,".data ++ e.text.data)))))) := by
  unfold dialogueLine
  simp [String.data_append]

theorem dialogueLine_no_nl {e : SubtitleEntry}
    (hstart : ('\n' : Char) ∉ e.start.data) (hend : ('\n' : Char) ∉ e.endTime.data)
    (hstyle : ('\n' : Char) ∉ e.style.data) (htext : ('\n' : Char) ∉ e.text.data) :
    ∀ x ∈ (dialogueLine e).data, (x == '\n') = false := by
  intro x hx
  rw [dialogueLine_data] at hx
  rw [beq_eq_false_iff_ne]
  rintro rfl
  simp only [List.mem_append] at hx
  rcases hx with h | h | h | h | h | h | h | h
  · exact absurd h (by decide)
  · exact hstart h
  · exact absurd h (by decide)
  · exact hend h
  · exact absurd h (by decide)
  · exact hstyle h
  · exact absurd h (by decide)
  · exact htext h

theorem dialogueLine_starts (e : SubtitleEntry) :
    "Dialogue:".data.isPrefixOf (dialogueLine e).data = true := by
  rw [ List.isPrefixOf_iff_prefix, dialogueLine_data]
  have h1 : "Dialogue:".data <+: "Dialogue: 0,".data := by decide
  exact h1.trans (List.prefix_append _ _)

theorem dlg_flatten (vs : List SubtitleEntry)
    (hnl : ∀ e ∈ vs, ∀ x ∈ (dialogueLine e).data, (x == '\n') = false) :
    (splitOnChar '\n'
        ((vs.map (fun e => (dialogueLine e).data ++ ['\n'])).flatten)).filter
      (fun l => "Dialogue:".data.isPrefixOf l) =
      vs.map (fun e => (dialogueLine e).data) := by
  induction vs with
  | nil => decide
  | cons e vs ih =>
    have hflat : ((List.map (fun e => (dialogueLine e).data ++ ['\n']) (e :: vs))).flatten =
        (dialogueLine e).data ++ '\n' :: (vs.map (fun e => (dialogueLine e).data ++ ['\n'])).flatten := by
      simp [List.flatten_cons, List.append_assoc]
    rw [hflat, splitOnChar_append,
      splitOnChar_no_sep (hnl e (List.mem_cons_self e vs)), List.filter_append]
    simp only [List.filter, dialogueLine_starts e]
    rw [ih (fun x hx => hnl x (List.mem_cons_of_mem e hx))]
    rfl

/-- The lines of a rendered ASS document beginning with `Dialogue:` are
exactly the dialogue lines of the records, in order, provided no record
field smuggles in a raw newline. -/
theorem writeASSFile_dialogue (vs : List SubtitleEntry)
    (hnl : ∀ e ∈ vs, ∀ x ∈ (dialogueLine e).data, (x == '\n') = false) :
    dialogueLines (writeASSFile vs) = vs.map dialogueLine := by
  unfold dialogueLines writeASSFile
  have hdata : (assHeader ++ String.join (vs.map (fun e => dialogueLine e ++ "\n"))).data =
      assHeaderBody.data ++ '\n' ::
        (vs.map (fun e => (dialogueLine e).data ++ ['\n'])).flatten := by
    rw [String.data_append, String.join_eq, assHeader_split]
    simp [List.map_map, Function.comp_def, String.data_append, List.append_assoc]
  rw [hdata, splitOnChar_append, List.filter_append, header_filter_empty,
    List.nil_append, dlg_flatten vs hnl]
  simp [List.map_map, Function.comp_def]

/-! ## Claim C1: the main theorem -/

theorem parseSRTBlock_ne_blank {b : List Char}
    (h : (parseSRTBlock (String.mk b)).isSome = true) :
    (jsTrim b).isEmpty = false := by
  by_contra hc
  have hb : jsTrim b = [] := by
    cases hj : jsTrim b with
    | nil => rfl
    | cons x t => rw [hj] at hc; simp at hc
  rw [parseSRTBlock_none_of_blank hb] at h
  simp at h

theorem filterMap_length_all {α β : Type} (f : α → Option β) :
    ∀ l : List α, (∀ b ∈ l, (f b).isSome = true) →
    (l.filterMap f).length = l.length := by
  intro l
  induction l with
  | nil => intro _; rfl
  | cons b t ih =>
    intro h
    rcases hfb : f b with _ | v
    · exact absurd (h b (List.mem_cons_self b t)) (by simp [hfb])
    · rw [List.filterMap_cons, hfb]
      simp only [List.length_cons]
      rw [ih (fun x hx => h x (List.mem_cons_of_mem b hx))]

theorem splitBlankAux_ne_nil : ∀ (fuel : Nat) (l : List Char),
    splitBlankAux fuel l ≠ [] := by
  intro fuel
  induction fuel with
  | zero => intro l; simp [splitBlankAux]
  | succ fuel ih =>
    intro l
    cases l with
    | nil => simp [splitBlankAux]
    | cons c t =>
      rw [splitBlankAux]
      split
      · split
        · simp
        · exact consHead_ne_nil _ _
      · exact consHead_ne_nil _ _

theorem docBlocks_ne_nil (content : String) : docBlocks content ≠ [] :=
  splitBlankAux_ne_nil _ _

theorem sortKey_fix (e : SubtitleEntry) :
    sortKey (fixEntryTiming e) = sortKey e := by
  unfold sortKey
  rw [(fixEntryTiming_fields e).1]

theorem string_no_nl_of_default_or_italic {s : String}
    (h : s = "Default" ∨ s = "Italic") : ('\n' : Char) ∉ s.data := by
  rcases h with rfl | rfl <;> decide

/-- Claim C1: for a document whose every block is well-formed (each
parses), `convertToASS` reports success with `subtitleCount` equal to
the number of blocks, and the output document contains exactly that many
`Dialogue:` lines — exactly the dialogue renderings of the validated
records, in order — where the records are arranged in ascending cue
number order whatever the order of the blocks in the input. -/
theorem C1_convertToASS_success (content : String)
    (hne : jsTrim content.data ≠ [])
    (hall : ∀ b ∈ docBlocks content, (parseSRTBlock (String.mk b)).isSome = true) :
    (convertToASS content).success = true ∧
    (convertToASS content).subtitleCount = some (docBlocks content).length ∧
    (convertToASS content).content =
      some (writeASSFile (validateSubtitleTiming (parseSRTFile content))) ∧
    dialogueLines (writeASSFile (validateSubtitleTiming (parseSRTFile content))) =
      (validateSubtitleTiming (parseSRTFile content)).map dialogueLine ∧
    dialogueLineCount (writeASSFile (validateSubtitleTiming (parseSRTFile content))) =
      (docBlocks content).length ∧
    List.Pairwise (fun a b => sortKey a ≤ sortKey b)
      (validateSubtitleTiming (parseSRTFile content)) := by
  have hf : ∀ b ∈ docBlocks content,
      (if (jsTrim b).isEmpty then none else parseSRTBlock (String.mk b)) =
        parseSRTBlock (String.mk b) := by
    intro b hb
    rw [if_neg (by simp [parseSRTBlock_ne_blank (hall b hb)])]
  have hparse : parseSRTFile content =
      ((docBlocks content).filterMap
        (fun b => if (jsTrim b).isEmpty then none else parseSRTBlock (String.mk b))).insertionSort
        (fun a b => sortKey a ≤ sortKey b) := by
    unfold parseSRTFile
    rw [if_neg hne]
  have hlen1 : ((docBlocks content).filterMap
      (fun b => if (jsTrim b).isEmpty then none else parseSRTBlock (String.mk b))).length =
      (docBlocks content).length := by
    apply filterMap_length_all
    intro b hb
    rw [hf b hb]
    exact hall b hb
  have hlen2 : (parseSRTFile content).length = (docBlocks content).length := by
    rw [hparse]
    rw [(List.perm_insertionSort _ _).length_eq]
    exact hlen1
  have hlenv : (validateSubtitleTiming (parseSRTFile content)).length =
      (docBlocks content).length := by
    unfold validateSubtitleTiming
    rw [List.length_map]
    exact hlen2
  have hnonempty : ¬ (parseSRTFile content).isEmpty = true := by
    intro hc
    have h0 : (parseSRTFile content).length = 0 := by
      cases hp : parseSRTFile content with
      | nil => rfl
      | cons x t => rw [hp] at hc; simp at hc
    rw [hlen2] at h0
    exact docBlocks_ne_nil content (List.length_eq_zero.mp h0)
  -- every record that reached the validator has safe fields
  have hmem : ∀ e ∈ parseSRTFile content, ∃ b,
      parseSRTBlock (String.mk b) = some e := by
    intro e he
    rw [hparse] at he
    have he2 := (List.perm_insertionSort
      (fun a b => sortKey a ≤ sortKey b) _).mem_iff.mp he
    obtain ⟨b, hb, hfb⟩ := List.mem_filterMap.mp he2
    rw [hf b hb] at hfb
    exact ⟨b, hfb⟩
  have hnl : ∀ e ∈ validateSubtitleTiming (parseSRTFile content),
      ∀ x ∈ (dialogueLine e).data, (x == '\n') = false := by
    intro e he
    obtain ⟨e0, he0, rfl⟩ := List.mem_map.mp he
    obtain ⟨b, hb⟩ := hmem e0 he0
    obtain ⟨⟨s1, hstart⟩, ⟨s2, hend⟩, ⟨t, htext, hstyle⟩⟩ := parseSRTBlock_fields hb
    obtain ⟨hnum, hstart2, htext2, hstyle2, hend2⟩ := fixEntryTiming_fields e0
    apply dialogueLine_no_nl
    · rw [hstart2, hstart]
      exact parseSRTTime_no_nl s1
    · rcases hend2 with h2 | ⟨cs, h2⟩
      · rw [h2, hend]
        exact parseSRTTime_no_nl s2
      · rw [h2]
        exact csToAss_no_nl cs
    · rw [hstyle2, hstyle]
      exact string_no_nl_of_default_or_italic (cleanAndFormatText_style t)
    · rw [htext2, htext]
      exact cleanAndFormatText_text_no_nl t
  have hdlg := writeASSFile_dialogue (validateSubtitleTiming (parseSRTFile content)) hnl
  have hsorted : List.Pairwise (fun a b => sortKey a ≤ sortKey b)
      (validateSubtitleTiming (parseSRTFile content)) := by
    unfold validateSubtitleTiming
    apply List.Pairwise.map
    · intro a b hab
      rw [sortKey_fix, sortKey_fix]
      exact hab
    · rw [hparse]
      haveI : IsTotal SubtitleEntry (fun a b => sortKey a ≤ sortKey b) :=
        ⟨fun a b => le_total (sortKey a) (sortKey b)⟩
      haveI : IsTrans SubtitleEntry (fun a b => sortKey a ≤ sortKey b) :=
        ⟨fun a b c h1 h2 => le_trans h1 h2⟩
      exact List.sorted_insertionSort (fun a b => sortKey a ≤ sortKey b) _
  refine ⟨?_, ?_, ?_, hdlg, ?_, hsorted⟩
  · unfold convertToASS
    rw [if_neg hnonempty]
  · unfold convertToASS
    rw [if_neg hnonempty]
    simp only
    rw [hlenv]
  · unfold convertToASS
    rw [if_neg hnonempty]
  · unfold dialogueLineCount
    rw [hdlg, List.length_map]
    unfold validateSubtitleTiming
    rw [List.length_map]
    exact hlen2

/-- Witness for C1: a two-cue document given out of order converts with
count two and its two dialogue lines come out in ascending cue order. -/
theorem C1_witness :
    jsTrim ("2\n00:00:05,000 --> 00:00:06,000\nWorld\n\n1\n00:00:01,000 --> 00:00:02,000\nHello" : String).data ≠ [] ∧
    (∀ b ∈ docBlocks "2\n00:00:05,000 --> 00:00:06,000\nWorld\n\n1\n00:00:01,000 --> 00:00:02,000\nHello",
      (parseSRTBlock (String.mk b)).isSome = true) ∧
    ((convertToASS "2\n00:00:05,000 --> 00:00:06,000\nWorld\n\n1\n00:00:01,000 --> 00:00:02,000\nHello").success = true ∧
     (convertToASS "2\n00:00:05,000 --> 00:00:06,000\nWorld\n\n1\n00:00:01,000 --> 00:00:02,000\nHello").subtitleCount =
       some (docBlocks "2\n00:00:05,000 --> 00:00:06,000\nWorld\n\n1\n00:00:01,000 --> 00:00:02,000\nHello").length ∧
     (convertToASS "2\n00:00:05,000 --> 00:00:06,000\nWorld\n\n1\n00:00:01,000 --> 00:00:02,000\nHello").content =
       some (writeASSFile (validateSubtitleTiming (parseSRTFile "2\n00:00:05,000 --> 00:00:06,000\nWorld\n\n1\n00:00:01,000 --> 00:00:02,000\nHello"))) ∧
     dialogueLines (writeASSFile (validateSubtitleTiming (parseSRTFile "2\n00:00:05,000 --> 00:00:06,000\nWorld\n\n1\n00:00:01,000 --> 00:00:02,000\nHello"))) =
       (validateSubtitleTiming (parseSRTFile "2\n00:00:05,000 --> 00:00:06,000\nWorld\n\n1\n00:00:01,000 --> 00:00:02,000\nHello")).map dialogueLine ∧
     dialogueLineCount (writeASSFile (validateSubtitleTiming (parseSRTFile "2\n00:00:05,000 --> 00:00:06,000\nWorld\n\n1\n00:00:01,000 --> 00:00:02,000\nHello"))) =
       (docBlocks "2\n00:00:05,000 --> 00:00:06,000\nWorld\n\n1\n00:00:01,000 --> 00:00:02,000\nHello").length ∧
     List.Pairwise (fun a b => sortKey a ≤ sortKey b)
       (validateSubtitleTiming (parseSRTFile "2\n00:00:05,000 --> 00:00:06,000\nWorld\n\n1\n00:00:01,000 --> 00:00:02,000\nHello"))) := by
  refine ⟨by decide, by decide, ?_⟩
  exact C1_convertToASS_success
    "2\n00:00:05,000 --> 00:00:06,000\nWorld\n\n1\n00:00:01,000 --> 00:00:02,000\nHello"
    (by decide) (by decide)

end SRTtoASS
